import Mathlib

/-! # aws-image-processor: batch intake loop and image variant pipeline

A shallow embedding of `cmd/lambda/main.go` and
`internal/processor/image_processor.go`.

* Effects (S3 requests, codec calls) are threaded through explicit state.
* Calls into other packages (`encoding/json`, the image codecs, the S3 client)
  are parameters of the embedding or are modelled where a claim depends on
  what they compute; each such place says so in its doc comment.
-/

namespace AwsImageProcessor

/-! ## `cmd/lambda/main.go`: data model -/

/-- The anonymous struct `S3EventRecord.S3.Bucket` (main.go:19-21). -/
structure S3Bucket where
  Name : String
deriving DecidableEq

/-- The anonymous struct `S3EventRecord.S3.Object` (main.go:22-25);
`Size` is an `int64`, never used in arithmetic, only compared. -/
structure S3Object where
  Key : String
  Size : Int
deriving DecidableEq

/-- The anonymous struct `S3EventRecord.S3` (main.go:18-26). -/
structure S3Entity where
  Bucket : S3Bucket
  Object : S3Object
deriving DecidableEq

/-- The struct `S3EventRecord` (main.go:16-27). -/
structure S3EventRecord where
  EventName : String
  S3 : S3Entity
deriving DecidableEq

/-- The struct `S3Event` (main.go:29-31). -/
structure S3Event where
  Records : List S3EventRecord
deriving DecidableEq

/-- The struct `ProcessResult` (image_processor.go:28-32). -/
structure ProcessResult where
  ThumbnailKey : String
  MediumKey : String
  OriginalKey : String
deriving DecidableEq

/-- The fields of `events.SQSMessage` the handler reads. The body is kept
generic: `β` is `string` in the source, and `json.Unmarshal` is the function
that turns it into an `S3Event` or an error. -/
structure SQSMessage (β : Type) where
  MessageId : String
  Body : β

/-- The struct `events.SQSBatchItemFailure`. -/
structure SQSBatchItemFailure where
  ItemIdentifier : String
deriving DecidableEq

/-- The struct `events.SQSEventResponse`. -/
structure SQSEventResponse where
  BatchItemFailures : List SQSBatchItemFailure
deriving DecidableEq

/-! ## `cmd/lambda/main.go`: the handler -/

section Handler

variable {σ β : Type}

/-- The method `Handler.processS3Object` (main.go:104-130). `ProcessImage` is the
pipeline of the `processor` package, run on the state `s`. -/
def processS3Object
    (ProcessImage : String → String → σ → Except String ProcessResult × σ)
    (record : S3EventRecord) (s : σ) : Except String Unit × σ :=
  let bucket := record.S3.Bucket.Name
  let key := record.S3.Object.Key
  let size := record.S3.Object.Size
  if size > 50 * 1024 * 1024 then
    (Except.error ("arquivo muito grande: " ++ toString size ++ " bytes (máximo 50MB)"), s)
  else
    match ProcessImage bucket key s with
    | (Except.error err, s1) => (Except.error ("erro ao processar imagem: " ++ err), s1)
    | (Except.ok _, s1) => (Except.ok (), s1)

/-- The inner loop of `HandleSQSEvent` (main.go:75-82): walks the records of
one parsed message, stops at the first error, returns `hasError`. -/
def recordsLoop
    (ProcessImage : String → String → σ → Except String ProcessResult × σ) :
    List S3EventRecord → σ → Bool × σ
  | [], s => (false, s)
  | s3Record :: rest, s =>
    match processS3Object ProcessImage s3Record s with
    | (Except.error _, s1) => (true, s1)
    | (Except.ok _, s1) => recordsLoop ProcessImage rest s1

/-- The outer loop of `HandleSQSEvent` (main.go:57-90), with the accumulator
`batchItemFailures`. -/
def messagesLoop
    (unmarshal : β → Option S3Event)
    (ProcessImage : String → String → σ → Except String ProcessResult × σ) :
    List (SQSMessage β) → List SQSBatchItemFailure → σ → List SQSBatchItemFailure × σ
  | [], batchItemFailures, s => (batchItemFailures, s)
  | record :: rest, batchItemFailures, s =>
    match unmarshal record.Body with
    | none =>
      messagesLoop unmarshal ProcessImage rest
        (batchItemFailures ++ [{ ItemIdentifier := record.MessageId }]) s
    | some s3Event =>
      match recordsLoop ProcessImage s3Event.Records s with
      | (true, s1) =>
        messagesLoop unmarshal ProcessImage rest
          (batchItemFailures ++ [{ ItemIdentifier := record.MessageId }]) s1
      | (false, s1) => messagesLoop unmarshal ProcessImage rest batchItemFailures s1

/-- The method `Handler.HandleSQSEvent` (main.go:51-102). The result is the response, the
returned `error` (`none` is `nil`) and the final state. -/
def HandleSQSEvent
    (unmarshal : β → Option S3Event)
    (ProcessImage : String → String → σ → Except String ProcessResult × σ)
    (sqsEvent : List (SQSMessage β)) (s : σ) :
    (SQSEventResponse × Option String) × σ :=
  let r := messagesLoop unmarshal ProcessImage sqsEvent [] s
  (({ BatchItemFailures := r.1 }, none), r.2)

/-- The log of `ProcessImage` invocations: one `(bucket, key)` per call. -/
abbrev CallLog := List (String × String)

/-- A pipeline whose outcome on a record is the fixed `outcome bucket key`,
instrumented to append each invocation to the log. -/
def recordCalls (outcome : String → String → Except String ProcessResult) :
    String → String → CallLog → Except String ProcessResult × CallLog :=
  fun bucket key log => (outcome bucket key, log ++ [(bucket, key)])

/-- A record fails when its declared size exceeds 50 MiB or the pipeline
returns an error on it. -/
def recordFails (outcome : String → String → Except String ProcessResult)
    (r : S3EventRecord) : Bool :=
  decide (r.S3.Object.Size > 52428800) ||
    (match outcome r.S3.Bucket.Name r.S3.Object.Key with
     | Except.error _ => true
     | Except.ok _ => false)

/-- A message fails when its body does not parse or one of its records fails. -/
def messageFails (unmarshal : β → Option S3Event)
    (outcome : String → String → Except String ProcessResult)
    (m : SQSMessage β) : Bool :=
  match unmarshal m.Body with
  | none => true
  | some s3Event => s3Event.Records.any (recordFails outcome)

/-- The `(bucket, key)` arguments a record is processed with. -/
def callOf (r : S3EventRecord) : String × String :=
  (r.S3.Bucket.Name, r.S3.Object.Key)

/-- The invocations expected for a list of records: every record before the
first failing one, then the first failing one unless it fails the size gate. -/
def expectedCalls (outcome : String → String → Except String ProcessResult)
    (records : List S3EventRecord) : CallLog :=
  (records.takeWhile (fun r => !recordFails outcome r)).map callOf ++
    (match records.dropWhile (fun r => !recordFails outcome r) with
     | [] => []
     | r :: _ => if r.S3.Object.Size > 52428800 then [] else [callOf r])

/-- The invocations expected for one message: none when the body does not
parse. -/
def messageCalls (unmarshal : β → Option S3Event)
    (outcome : String → String → Except String ProcessResult)
    (m : SQSMessage β) : CallLog :=
  match unmarshal m.Body with
  | none => []
  | some s3Event => expectedCalls outcome s3Event.Records

/-- A sample pipeline outcome: an error on the key `bad.jpg`, success on every
other key. -/
def sampleOutcome (_bucket key : String) : Except String ProcessResult :=
  if key = "bad.jpg" then Except.error "erro ao baixar imagem"
  else Except.ok { ThumbnailKey := "thumbnails/" ++ key, MediumKey := "medium/" ++ key,
                   OriginalKey := key }

/-- A record with the given bucket, key and declared size. -/
def mkRecord (bucket key : String) (size : Int) : S3EventRecord :=
  { EventName := "ObjectCreated:Put",
    S3 := { Bucket := { Name := bucket }, Object := { Key := key, Size := size } } }

end Handler

/-! ## `encoding/json`: `Unmarshal` into `S3Event`

`json.Unmarshal` belongs to the Go standard library. Its decoding of a
well-formed document into the struct types of `main.go` (lines 16-31, with their
`json` tags) is written out here over the syntax tree of the document: members are
matched to fields by tag, exactly or under case folding; members matching no
field are skipped; fields with no member keep the value they had; `null` leaves
a field as it was; a value of the wrong JSON type is an error. In documents that
name the same field twice the later member is decoded onto the result of the
earlier one. -/

/-- A well-formed JSON document. `integer` is a number written without
fraction or exponent, `fraction` any other number, kept as written. -/
inductive JSON where
  | null
  | bool (b : Bool)
  | integer (n : Int)
  | fraction (lit : String)
  | string (s : String)
  | array (elems : List JSON)
  | object (members : List (String × JSON))

/-- The fold `foldRune` of `encoding/json`, as far as it can reach an ASCII
letter: lower case to upper case, the long s to `S`, the Kelvin sign to `K`. -/
def foldRune (c : Char) : Char :=
  if c = Char.ofNat 0x17F then 'S'
  else if c = Char.ofNat 0x212A then 'K'
  else c.toUpper

/-- The function `foldName` of `encoding/json`. -/
def foldName (s : String) : String :=
  String.mk (s.toList.map foldRune)

/-- Whether the member key `key` selects the field tagged `name`: by exact
name, else by folded name. -/
def fieldMatches (name key : String) : Bool :=
  decide (key = name) || decide (foldName key = foldName name)

/-- Decoding into a `string` field holding `old`. -/
def decodeString (v : JSON) (old : String) : Option String :=
  match v with
  | JSON.null => some old
  | JSON.string s => some s
  | _ => none

/-- Decoding into an `int64` field holding `old`. -/
def decodeInt64 (v : JSON) (old : Int) : Option Int :=
  match v with
  | JSON.null => some old
  | JSON.integer n => if -(2 : Int) ^ 63 ≤ n ∧ n < (2 : Int) ^ 63 then some n else none
  | _ => none

/-- Decoding the members of an object into `S3EventRecord.S3.Bucket`. -/
def decodeBucketMembers : List (String × JSON) → S3Bucket → Option S3Bucket
  | [], old => some old
  | (key, v) :: rest, old =>
    if fieldMatches "name" key then
      match decodeString v old.Name with
      | none => none
      | some s => decodeBucketMembers rest { old with Name := s }
    else decodeBucketMembers rest old

/-- Decoding into `S3EventRecord.S3.Bucket`. -/
def decodeBucket (v : JSON) (old : S3Bucket) : Option S3Bucket :=
  match v with
  | JSON.null => some old
  | JSON.object members => decodeBucketMembers members old
  | _ => none

/-- Decoding the members of an object into `S3EventRecord.S3.Object`. -/
def decodeObjectMembers : List (String × JSON) → S3Object → Option S3Object
  | [], old => some old
  | (key, v) :: rest, old =>
    if fieldMatches "key" key then
      match decodeString v old.Key with
      | none => none
      | some s => decodeObjectMembers rest { old with Key := s }
    else if fieldMatches "size" key then
      match decodeInt64 v old.Size with
      | none => none
      | some n => decodeObjectMembers rest { old with Size := n }
    else decodeObjectMembers rest old

/-- Decoding into `S3EventRecord.S3.Object`. -/
def decodeObject (v : JSON) (old : S3Object) : Option S3Object :=
  match v with
  | JSON.null => some old
  | JSON.object members => decodeObjectMembers members old
  | _ => none

/-- Decoding the members of an object into `S3EventRecord.S3`. -/
def decodeEntityMembers : List (String × JSON) → S3Entity → Option S3Entity
  | [], old => some old
  | (key, v) :: rest, old =>
    if fieldMatches "bucket" key then
      match decodeBucket v old.Bucket with
      | none => none
      | some b => decodeEntityMembers rest { old with Bucket := b }
    else if fieldMatches "object" key then
      match decodeObject v old.Object with
      | none => none
      | some o => decodeEntityMembers rest { old with Object := o }
    else decodeEntityMembers rest old

/-- Decoding into `S3EventRecord.S3`. -/
def decodeEntity (v : JSON) (old : S3Entity) : Option S3Entity :=
  match v with
  | JSON.null => some old
  | JSON.object members => decodeEntityMembers members old
  | _ => none

/-- Decoding the members of an object into an `S3EventRecord`. -/
def decodeRecordMembers : List (String × JSON) → S3EventRecord → Option S3EventRecord
  | [], old => some old
  | (key, v) :: rest, old =>
    if fieldMatches "eventName" key then
      match decodeString v old.EventName with
      | none => none
      | some s => decodeRecordMembers rest { old with EventName := s }
    else if fieldMatches "s3" key then
      match decodeEntity v old.S3 with
      | none => none
      | some e => decodeRecordMembers rest { old with S3 := e }
    else decodeRecordMembers rest old

/-- Decoding into an `S3EventRecord`. -/
def decodeRecord (v : JSON) (old : S3EventRecord) : Option S3EventRecord :=
  match v with
  | JSON.null => some old
  | JSON.object members => decodeRecordMembers members old
  | _ => none

/-- The zero value of `S3EventRecord`. -/
def zeroRecord : S3EventRecord :=
  { EventName := "", S3 := { Bucket := { Name := "" }, Object := { Key := "", Size := 0 } } }

/-- Decoding the elements of an array into the slice `[]S3EventRecord` holding
`old`: element `i` is decoded onto `old[i]` when there is one, onto the zero
value otherwise. -/
def decodeElems : List JSON → List S3EventRecord → Option (List S3EventRecord)
  | [], _ => some []
  | v :: rest, old =>
    match decodeRecord v (old.headD zeroRecord) with
    | none => none
    | some r =>
      match decodeElems rest old.tail with
      | none => none
      | some rs => some (r :: rs)

/-- Decoding into the slice `[]S3EventRecord`. -/
def decodeRecords (v : JSON) (old : List S3EventRecord) : Option (List S3EventRecord) :=
  match v with
  | JSON.null => some []
  | JSON.array elems => decodeElems elems old
  | _ => none

/-- Decoding the members of an object into an `S3Event`. -/
def decodeEventMembers : List (String × JSON) → S3Event → Option S3Event
  | [], old => some old
  | (key, v) :: rest, old =>
    if fieldMatches "Records" key then
      match decodeRecords v old.Records with
      | none => none
      | some rs => decodeEventMembers rest { old with Records := rs }
    else decodeEventMembers rest old

/-- The call `json.Unmarshal([]byte(record.Body), &s3Event)` of main.go:63 on a
body that is the well-formed document `v`, with `s3Event` freshly declared:
`none` is a non-nil error. -/
def unmarshalS3Event (v : JSON) : Option S3Event :=
  match v with
  | JSON.null => some { Records := [] }
  | JSON.object members => decodeEventMembers members { Records := [] }
  | _ => none

/-- A sample body: one entry with bucket `in` and key `cat.jpg` and no
`size`. -/
def sampleBodyNoSize : JSON :=
  JSON.object [("Records", JSON.array [JSON.object
    [("eventName", JSON.string "ObjectCreated:Put"),
     ("s3", JSON.object
       [("bucket", JSON.object [("name", JSON.string "in")]),
        ("object", JSON.object [("key", JSON.string "cat.jpg")])])]])]

/-! ### Reading a document field by field

The reading that the decoder amounts to on a document in which no object
names a field twice: every field is read from the member that selects it, and
a field selected by no member, or by a `null` member, is read as its zero
value. -/

/-- The value of the first member whose key selects the field tagged `name`,
`none` when no member does. -/
def findMember (name : String) (members : List (String × JSON)) : Option JSON :=
  match members.find? (fun kv => fieldMatches name kv.1) with
  | none => none
  | some kv => some kv.2

/-- At most one member selects the field tagged `name`. -/
def namedOnce (name : String) (members : List (String × JSON)) : Bool :=
  decide (members.countP (fun kv => fieldMatches name kv.1) ≤ 1)

/-- Reading a `string` field from its member, if any. -/
def readString (v : Option JSON) : Option String :=
  match v with
  | none => some ""
  | some JSON.null => some ""
  | some (JSON.string s) => some s
  | some _ => none

/-- Reading an `int64` field from its member, if any. -/
def readInt64 (v : Option JSON) : Option Int :=
  match v with
  | none => some 0
  | some JSON.null => some 0
  | some (JSON.integer n) =>
    if -(2 : Int) ^ 63 ≤ n ∧ n < (2 : Int) ^ 63 then some n else none
  | some _ => none

/-- Reading `S3EventRecord.S3.Bucket` from its member, if any. -/
def readBucket (v : Option JSON) : Option S3Bucket :=
  match v with
  | none => some { Name := "" }
  | some JSON.null => some { Name := "" }
  | some (JSON.object members) =>
    match readString (findMember "name" members) with
    | some s => some { Name := s }
    | none => none
  | some _ => none

/-- Reading `S3EventRecord.S3.Object` from its member, if any. -/
def readObject (v : Option JSON) : Option S3Object :=
  match v with
  | none => some { Key := "", Size := 0 }
  | some JSON.null => some { Key := "", Size := 0 }
  | some (JSON.object members) =>
    match readString (findMember "key" members), readInt64 (findMember "size" members) with
    | some s, some n => some { Key := s, Size := n }
    | _, _ => none
  | some _ => none

/-- Reading `S3EventRecord.S3` from its member, if any. -/
def readEntity (v : Option JSON) : Option S3Entity :=
  match v with
  | none => some { Bucket := { Name := "" }, Object := { Key := "", Size := 0 } }
  | some JSON.null => some { Bucket := { Name := "" }, Object := { Key := "", Size := 0 } }
  | some (JSON.object members) =>
    match readBucket (findMember "bucket" members),
        readObject (findMember "object" members) with
    | some b, some o => some { Bucket := b, Object := o }
    | _, _ => none
  | some _ => none

/-- Reading an `S3EventRecord` from an element of the `Records` array. -/
def readRecord (v : JSON) : Option S3EventRecord :=
  match v with
  | JSON.null => some zeroRecord
  | JSON.object members =>
    match readString (findMember "eventName" members),
        readEntity (findMember "s3" members) with
    | some s, some e => some { EventName := s, S3 := e }
    | _, _ => none
  | _ => none

/-- Reading the elements of the `Records` array, in order. -/
def readElems : List JSON → Option (List S3EventRecord)
  | [] => some []
  | v :: rest =>
    match readRecord v, readElems rest with
    | some r, some rs => some (r :: rs)
    | _, _ => none

/-- Reading the slice `Records` from its member, if any. -/
def readRecords (v : Option JSON) : Option (List S3EventRecord) :=
  match v with
  | none => some []
  | some JSON.null => some []
  | some (JSON.array elems) => readElems elems
  | some _ => none

/-- Reading an `S3Event` from a message body. -/
def readEvent (v : JSON) : Option S3Event :=
  match v with
  | JSON.null => some { Records := [] }
  | JSON.object members =>
    match readRecords (findMember "Records" members) with
    | some rs => some { Records := rs }
    | none => none
  | _ => none

/-- The object `v`, if it is one, names `name` at most once. -/
def noRepeatBucket (v : JSON) : Bool :=
  match v with
  | JSON.object members => namedOnce "name" members
  | _ => true

/-- The object `v`, if it is one, names `key` and `size` at most once each. -/
def noRepeatObject (v : JSON) : Bool :=
  match v with
  | JSON.object members => namedOnce "key" members && namedOnce "size" members
  | _ => true

/-- The object `v`, if it is one, names `bucket` and `object` at most once
each, and the same holds inside these two members. -/
def noRepeatEntity (v : JSON) : Bool :=
  match v with
  | JSON.object members =>
    namedOnce "bucket" members && namedOnce "object" members &&
      (match findMember "bucket" members with
       | some b => noRepeatBucket b
       | none => true) &&
      (match findMember "object" members with
       | some o => noRepeatObject o
       | none => true)
  | _ => true

/-- The entry `v`, if it is an object, names `eventName` and `s3` at most once
each, and no field is named twice inside `s3`. -/
def noRepeatRecord (v : JSON) : Bool :=
  match v with
  | JSON.object members =>
    namedOnce "eventName" members && namedOnce "s3" members &&
      (match findMember "s3" members with
       | some e => noRepeatEntity e
       | none => true)
  | _ => true

/-- The body `v`, if it is an object, names `Records` at most once, and no
entry of that array names a field twice. -/
def noRepeatEvent (v : JSON) : Bool :=
  match v with
  | JSON.object members =>
    namedOnce "Records" members &&
      (match findMember "Records" members with
       | some (JSON.array elems) => elems.all noRepeatRecord
       | _ => true)
  | _ => true

/-- The member `size` of the member `object` of the member `s3` of an entry,
`none` when the entry has no such member. -/
def sizeMemberOf (entry : JSON) : Option JSON :=
  match entry with
  | JSON.object members =>
    match findMember "s3" members with
    | some (JSON.object s3) =>
      match findMember "object" s3 with
      | some (JSON.object obj) => findMember "size" obj
      | _ => none
    | _ => none
  | _ => none

/-- A sample body: one entry whose `object` carries `key` and `eTag` and no
`size`. -/
def sampleBodyKeyETag : JSON :=
  JSON.object [("Records", JSON.array [JSON.object
    [("eventName", JSON.string "ObjectCreated:Put"),
     ("s3", JSON.object
       [("bucket", JSON.object [("name", JSON.string "in")]),
        ("object", JSON.object [("key", JSON.string "cat.jpg"),
                                ("eTag", JSON.string "d41d8cd98f00b204")])])]])]

/-! ## `github.com/nfnt/resize`: `Thumbnail`

The package is imported by `image_processor.go` (line 17) and is not part of
this repository; `Thumbnail` and the entry of `Resize` are transcribed from its
files `thumbnail.go` and `resize.go`. -/

/-- A decoded `image.Image`: `Dx` and `Dy` are `Bounds().Dx()` and
`Bounds().Dy()`, `Pix` stands for the pixel data. -/
structure Image where
  Dx : Nat
  Dy : Nat
  Pix : List Nat
deriving DecidableEq

/-- An `InterpolationFunction` together with the floating-point part of
`Resize`: `scaled` gives the dimensions `Resize` substitutes when it is asked
for a zero width or height, `resample` the pixel data of the resampled image. -/
structure Interpolation where
  scaled : Nat → Nat → Image → Nat × Nat
  resample : Nat → Nat → Image → List Nat

/-- Conversion to the Go type `uint` (64 bits on the Lambda targets). -/
def toUint (n : Nat) : Nat := n % 2 ^ 64

/-- Conversion `int(u)` of a `uint` to the 64-bit Go type `int`. -/
def uintToInt (u : Nat) : Int :=
  if u % 2 ^ 64 < 2 ^ 63 then ((u % 2 ^ 64 : Nat) : Int) else ((u % 2 ^ 64 : Nat) : Int) - 2 ^ 64

/-- The function `resize.Resize` (resize.go) up to the point where the output
image is allocated with `image.Rect(0, 0, int(width), int(height))`. -/
def Resize (width height : Nat) (img : Image) (interp : Interpolation) : Image :=
  let width1 := if width = 0 then (interp.scaled width height img).1 else width
  let height1 := if height = 0 then (interp.scaled width height img).2 else height
  if uintToInt width1 = (img.Dx : Int) ∧ uintToInt height1 = (img.Dy : Int) then img
  else if img.Dx ≤ 0 ∨ img.Dy ≤ 0 then img
  else { Dx := width1, Dy := height1, Pix := interp.resample width1 height1 img }

/-- The dimensions `newWidth`, `newHeight` that `resize.Thumbnail`
(thumbnail.go) computes, in `uint` arithmetic, when it does not return the
original image. -/
def thumbnailSize (maxWidth maxHeight origWidth origHeight : Nat) : Nat × Nat :=
  let newWidth := origWidth
  let newHeight := origHeight
  let (newWidth, newHeight) :=
    if origWidth > maxWidth then
      let newHeight := toUint (toUint (origHeight * maxWidth) / origWidth)
      let newHeight := if newHeight < 1 then 1 else newHeight
      (maxWidth, newHeight)
    else (newWidth, newHeight)
  if newHeight > maxHeight then
    let newWidth := toUint (toUint (newWidth * maxHeight) / newHeight)
    let newWidth := if newWidth < 1 then 1 else newWidth
    (newWidth, maxHeight)
  else (newWidth, newHeight)

/-- The function `resize.Thumbnail` (thumbnail.go). -/
def Thumbnail (maxWidth maxHeight : Nat) (img : Image) (interp : Interpolation) : Image :=
  let origWidth := toUint img.Dx
  let origHeight := toUint img.Dy
  if maxWidth ≥ origWidth ∧ maxHeight ≥ origHeight then img
  else
    Resize (thumbnailSize maxWidth maxHeight origWidth origHeight).1
      (thumbnailSize maxWidth maxHeight origWidth origHeight).2 img interp

/-! ## `internal/processor/image_processor.go` -/

/-- The constant `ThumbnailWidth` (image_processor.go:21). -/
def ThumbnailWidth : Nat := 200

/-- The constant `ThumbnailHeight` (image_processor.go:22). -/
def ThumbnailHeight : Nat := 200

/-- The constant `MediumWidth` (image_processor.go:23). -/
def MediumWidth : Nat := 800

/-- The constant `MediumHeight` (image_processor.go:24). -/
def MediumHeight : Nat := 600

/-- The constant `JPEGQuality` (image_processor.go:25). -/
def JPEGQuality : Nat := 85

/-- A byte sequence. -/
abbrev Bytes := List Nat

/-- An object held by S3: its body and its content type (`*string`, absent
when the object was stored without one). -/
structure Object where
  Body : Bytes
  ContentType : Option String
deriving DecidableEq

/-- The calls `ProcessImage` makes into the S3 client and the codec packages. -/
inductive Call where
  | GetObject (bucket key : String)
  | PutObject (bucket key : String) (body : Bytes) (contentType : String)
  | jpegDecode (body : Bytes)
  | pngDecode (body : Bytes)
  | imageDecode (body : Bytes)
  | pngEncode (img : Image)
  | jpegEncode (img : Image) (quality : Nat)
deriving DecidableEq

/-- The state the pipeline runs on: the objects held by S3, by bucket and key,
and the calls issued so far, oldest first. -/
structure World where
  objects : String → String → Option Object
  calls : List Call

/-- The S3 client `*s3.Client`: `getFails` and `putFails` decide, from the
state and the request, whether a request fails in transport or at the service
(`some err`) or goes through (`none`). -/
structure S3Client where
  getFails : World → String → String → Option String
  putFails : World → String → String → Bytes → String → Option String

/-- The codec packages `image`, `image/jpeg`, `image/png`, and the `Lanczos3`
interpolation of `github.com/nfnt/resize`. -/
structure Codecs where
  jpegDecode : Bytes → Except String Image
  pngDecode : Bytes → Except String Image
  imageDecode : Bytes → Except String Image
  pngEncode : Image → Except String Bytes
  jpegEncode : Image → Nat → Except String Bytes
  Lanczos3 : Interpolation

/-- The struct `ImageProcessor` (image_processor.go:34-37). -/
structure ImageProcessor where
  s3Client : S3Client
  outputBucket : String

/-- The request `s3Client.GetObject`: logs the call; fails when the client
fails or the object does not exist, otherwise returns the stored object. -/
def GetObject (c : S3Client) (bucket key : String) (w : World) :
    Except String Object × World :=
  let w1 : World := { w with calls := w.calls ++ [Call.GetObject bucket key] }
  match c.getFails w bucket key with
  | some err => (Except.error err, w1)
  | none =>
    match w.objects bucket key with
    | none => (Except.error "NoSuchKey", w1)
    | some obj => (Except.ok obj, w1)

/-- The request `s3Client.PutObject`: logs the call; on failure the stored
objects are unchanged, on success the object at `(bucket, key)` is replaced. -/
def PutObject (c : S3Client) (bucket key : String) (body : Bytes) (contentType : String)
    (w : World) : Except String Unit × World :=
  let calls1 := w.calls ++ [Call.PutObject bucket key body contentType]
  match c.putFails w bucket key body contentType with
  | some err => (Except.error err, { w with calls := calls1 })
  | none =>
    (Except.ok (),
      { objects := fun b k =>
          if b = bucket ∧ k = key then some { Body := body, ContentType := some contentType }
          else w.objects b k,
        calls := calls1 })

/-- The scan of `filepath.Ext` over the path read backwards: `rev` is what is
left to read, `acc` what has been read. -/
def extScan : List Char → List Char → List Char
  | [], _ => []
  | c :: rev, acc =>
    if c = '/' then []
    else if c = '.' then '.' :: acc
    else extScan rev (c :: acc)

/-- The function `filepath.Ext` with the separator `/`: the suffix of the last
path element starting at its last dot, empty when it has no dot. -/
def filepathExt (path : String) : String :=
  String.mk (extScan path.toList.reverse [])

/-- The function `strings.ToLower`, on ASCII letters. The result is only
compared with `.jpg`, `.jpeg` and `.png`, and no character outside ASCII
lower-cases to a letter of these. -/
def stringsToLower (s : String) : String :=
  String.mk (s.toList.map Char.toLower)

/-- Whether `substr` occurs in `s` at some position. -/
def containsChars : List Char → List Char → Bool
  | [], substr => substr.isEmpty
  | c :: s, substr => substr.isPrefixOf (c :: s) || containsChars s substr

/-- The function `strings.Contains`. -/
def stringsContains (s substr : String) : Bool :=
  containsChars s.toList substr.toList

/-- The method `ImageProcessor.downloadImage` (image_processor.go:82-119). -/
def downloadImage (p : ImageProcessor) (lib : Codecs) (bucket key : String) (w : World) :
    Except String (Image × String) × World :=
  match GetObject p.s3Client bucket key w with
  | (Except.error err, w1) => (Except.error err, w1)
  | (Except.ok result, w1) =>
    let contentType :=
      match result.ContentType with
      | some ct => ct
      | none => ""
    let ext := stringsToLower (filepathExt key)
    let decoded : Except String Image × World :=
      if ext = ".jpg" ∨ ext = ".jpeg" then
        (lib.jpegDecode result.Body,
          { w1 with calls := w1.calls ++ [Call.jpegDecode result.Body] })
      else if ext = ".png" then
        (lib.pngDecode result.Body,
          { w1 with calls := w1.calls ++ [Call.pngDecode result.Body] })
      else
        (lib.imageDecode result.Body,
          { w1 with calls := w1.calls ++ [Call.imageDecode result.Body] })
    match decoded with
    | (Except.error err, w2) => (Except.error ("erro ao decodificar imagem: " ++ err), w2)
    | (Except.ok img, w2) => (Except.ok (img, contentType), w2)

/-- The method `ImageProcessor.createAndUploadVariant` (image_processor.go:121-164). -/
def createAndUploadVariant (p : ImageProcessor) (lib : Codecs) (img : Image) (key : String)
    (width height : Nat) (contentType : String) (w : World) : Except String Unit × World :=
  let resized := Thumbnail width height img lib.Lanczos3
  let encoded : Except String Bytes × String × World :=
    if stringsContains contentType "png" then
      (lib.pngEncode resized, contentType,
        { w with calls := w.calls ++ [Call.pngEncode resized] })
    else
      (lib.jpegEncode resized JPEGQuality, "image/jpeg",
        { w with calls := w.calls ++ [Call.jpegEncode resized JPEGQuality] })
  match encoded with
  | (Except.error err, _, w1) => (Except.error ("erro ao codificar imagem: " ++ err), w1)
  | (Except.ok buf, contentType1, w1) =>
    match PutObject p.s3Client p.outputBucket key buf contentType1 w1 with
    | (Except.error err, w2) => (Except.error ("erro ao fazer upload: " ++ err), w2)
    | (Except.ok _, w2) => (Except.ok (), w2)

/-- The method `ImageProcessor.ProcessImage` (image_processor.go:54-80). -/
def ProcessImage (p : ImageProcessor) (lib : Codecs) (bucket key : String) (w : World) :
    Except String ProcessResult × World :=
  match downloadImage p lib bucket key w with
  | (Except.error err, w1) => (Except.error ("erro ao baixar imagem: " ++ err), w1)
  | (Except.ok (img, contentType), w1) =>
    let thumbnailKey := "thumbnails/" ++ key
    match createAndUploadVariant p lib img thumbnailKey ThumbnailWidth ThumbnailHeight
        contentType w1 with
    | (Except.error err, w2) => (Except.error ("erro ao criar thumbnail: " ++ err), w2)
    | (Except.ok _, w2) =>
      let mediumKey := "medium/" ++ key
      match createAndUploadVariant p lib img mediumKey MediumWidth MediumHeight
          contentType w2 with
      | (Except.error err, w3) => (Except.error ("erro ao criar versão média: " ++ err), w3)
      | (Except.ok _, w3) =>
        (Except.ok { ThumbnailKey := thumbnailKey, MediumKey := mediumKey, OriginalKey := key },
          w3)

/-- The thumbnail step of `ProcessImage` (image_processor.go:64-67), run after
a download that returned `img` and `contentType`. -/
def thumbnailStep (p : ImageProcessor) (lib : Codecs) (bucket key : String) (w : World)
    (img : Image) (contentType : String) : Except String Unit × World :=
  createAndUploadVariant p lib img ("thumbnails/" ++ key) ThumbnailWidth ThumbnailHeight
    contentType (downloadImage p lib bucket key w).2

/-- The medium step of `ProcessImage` (image_processor.go:70-73), run after the
thumbnail step. -/
def mediumStep (p : ImageProcessor) (lib : Codecs) (bucket key : String) (w : World)
    (img : Image) (contentType : String) : Except String Unit × World :=
  createAndUploadVariant p lib img ("medium/" ++ key) MediumWidth MediumHeight
    contentType (thumbnailStep p lib bucket key w img contentType).2

/-- A call is a store request outside the two variant keys of `key` in the
bucket `out`. -/
def storesElsewhere (out key : String) : Call → Bool
  | Call.PutObject b k _ _ =>
    !(decide (b = out) && (decide (k = "thumbnails/" ++ key) || decide (k = "medium/" ++ key)))
  | _ => false

/-- A call is a store request. -/
def isStore : Call → Bool
  | Call.PutObject _ _ _ _ => true
  | _ => false

/-- A sample S3 client whose store requests fail exactly on the key `failKey`. -/
def sampleClient (failKey : String) : S3Client :=
  { getFails := fun _ _ _ => none,
    putFails := fun _ _ key _ _ => if key = failKey then some "AccessDenied" else none }

/-- Sample codecs: every body decodes to a 1000×1000 image, the PNG encoder
gives the bytes `[1]`, the JPEG encoder the bytes `[2]`. -/
def sampleCodecs : Codecs :=
  { jpegDecode := fun _ => Except.ok { Dx := 1000, Dy := 1000, Pix := [] },
    pngDecode := fun _ => Except.ok { Dx := 1000, Dy := 1000, Pix := [] },
    imageDecode := fun _ => Except.ok { Dx := 1000, Dy := 1000, Pix := [] },
    pngEncode := fun _ => Except.ok [1],
    jpegEncode := fun _ _ => Except.ok [2],
    Lanczos3 := { scaled := fun width height _ => (width, height),
                  resample := fun _ _ _ => [] } }

/-- A sample state: the bucket `in` holds `photo.png`, stored with the content
type `binary/octet-stream`, and `cat.jpg`, stored with `image/jpeg`. -/
def sampleWorld : World :=
  { objects := fun b k =>
      if b = "in" ∧ k = "photo.png" then
        some { Body := [137, 80, 78, 71], ContentType := some "binary/octet-stream" }
      else if b = "in" ∧ k = "cat.jpg" then
        some { Body := [255, 216], ContentType := some "image/jpeg" }
      else none,
    calls := [] }

/-- A sample interpolation: no pixel data is kept. -/
def sampleInterp : Interpolation :=
  { scaled := fun width height _ => (width, height), resample := fun _ _ _ => [] }

/-! ## Theorems: the batch intake loop -/

section HandlerTheorems

variable {β : Type}

theorem processS3Object_recordCalls
    (outcome : String → String → Except String ProcessResult)
    (r : S3EventRecord) (log : CallLog) :
    (processS3Object (recordCalls outcome) r log).2 =
        (if r.S3.Object.Size > 52428800 then log else log ++ [callOf r]) ∧
      ((∃ e, (processS3Object (recordCalls outcome) r log).1 = Except.error e) ↔
        recordFails outcome r = true) ∧
      ((processS3Object (recordCalls outcome) r log).1 = Except.ok () ↔
        recordFails outcome r = false) := by
  unfold processS3Object recordCalls recordFails callOf
  by_cases h : r.S3.Object.Size > 52428800
  · have h2 : r.S3.Object.Size > 50 * 1024 * 1024 := by omega
    simp [h, h2]
  · have h2 : ¬ r.S3.Object.Size > 50 * 1024 * 1024 := by omega
    simp only [h2, h, if_false, decide_False, Bool.false_or]
    cases outcome r.S3.Bucket.Name r.S3.Object.Key <;> simp

theorem recordsLoop_recordCalls
    (outcome : String → String → Except String ProcessResult)
    (rs : List S3EventRecord) (log : CallLog) :
    recordsLoop (recordCalls outcome) rs log =
      (rs.any (recordFails outcome), log ++ expectedCalls outcome rs) := by
  induction rs generalizing log with
  | nil => simp [recordsLoop, expectedCalls]
  | cons r rest ih =>
    obtain ⟨hlog, herr, hok⟩ := processS3Object_recordCalls outcome r log
    unfold recordsLoop
    rcases hp : processS3Object (recordCalls outcome) r log with ⟨res, s1⟩
    rw [hp] at hlog herr hok
    simp only at hlog herr hok
    cases res with
    | error e =>
      have hf : recordFails outcome r = true := herr.mp ⟨e, rfl⟩
      simp only [List.any_cons, hf, Bool.true_or]
      have : expectedCalls outcome (r :: rest) =
          (if r.S3.Object.Size > 52428800 then [] else [callOf r]) := by
        simp [expectedCalls, List.takeWhile_cons, List.dropWhile_cons, hf]
      rw [this, hlog]
      split <;> simp
    | ok u =>
      have hf : recordFails outcome r = false := hok.mp rfl
      have hsz : ¬ r.S3.Object.Size > 52428800 := by
        intro hgt
        simp [recordFails, hgt] at hf
      simp only [List.any_cons, hf, Bool.false_or]
      rw [ih s1, hlog, if_neg hsz]
      have : expectedCalls outcome (r :: rest) = callOf r :: expectedCalls outcome rest := by
        simp [expectedCalls, List.takeWhile_cons, List.dropWhile_cons, hf]
      rw [this]
      simp

theorem messagesLoop_recordCalls
    (unmarshal : β → Option S3Event)
    (outcome : String → String → Except String ProcessResult)
    (msgs : List (SQSMessage β)) (acc : List SQSBatchItemFailure) (log : CallLog) :
    messagesLoop unmarshal (recordCalls outcome) msgs acc log =
      (acc ++ (msgs.filter (messageFails unmarshal outcome)).map
          (fun m => { ItemIdentifier := m.MessageId }),
        log ++ (msgs.map (messageCalls unmarshal outcome)).flatten) := by
  induction msgs generalizing acc log with
  | nil => simp [messagesLoop]
  | cons m rest ih =>
    unfold messagesLoop
    cases hu : unmarshal m.Body with
    | none =>
      simp only
      rw [ih]
      simp [messageFails, messageCalls, hu]
    | some ev =>
      simp only
      rw [recordsLoop_recordCalls]
      cases hany : ev.Records.any (recordFails outcome) with
      | true =>
        simp only
        rw [ih]
        simp [messageFails, messageCalls, hu, hany]
      | false =>
        simp only
        rw [ih]
        simp [messageFails, messageCalls, hu, hany]

/-- C1: `HandleSQSEvent` returns a nil error and a `BatchItemFailures` list that
is, in arrival order and with one entry per message, the `MessageId`s of exactly
the messages whose body fails to parse or that contain a record over the size
limit or on which `ProcessImage` returns an error; so its length is the number
of failing messages and it is empty iff every message succeeded. -/
theorem HandleSQSEvent_failures_exact
    (unmarshal : β → Option S3Event)
    (outcome : String → String → Except String ProcessResult)
    (msgs : List (SQSMessage β)) (log : CallLog) :
    (HandleSQSEvent unmarshal (recordCalls outcome) msgs log).1.2 = none ∧
    (HandleSQSEvent unmarshal (recordCalls outcome) msgs log).1.1.BatchItemFailures =
      (msgs.filter (messageFails unmarshal outcome)).map
        (fun m => { ItemIdentifier := m.MessageId }) ∧
    (HandleSQSEvent unmarshal (recordCalls outcome) msgs log).1.1.BatchItemFailures.length =
      msgs.countP (messageFails unmarshal outcome) ∧
    ((HandleSQSEvent unmarshal (recordCalls outcome) msgs log).1.1.BatchItemFailures = [] ↔
      ∀ m ∈ msgs, messageFails unmarshal outcome m = false) ∧
    (∀ m : SQSMessage β, messageFails unmarshal outcome m = true ↔
      (unmarshal m.Body = none ∨
        ∃ s3Event, unmarshal m.Body = some s3Event ∧
          ∃ r ∈ s3Event.Records, r.S3.Object.Size > 52428800 ∨
            ∃ e, outcome r.S3.Bucket.Name r.S3.Object.Key = Except.error e)) := by
  have hloop := messagesLoop_recordCalls unmarshal outcome msgs [] log
  have hres : (HandleSQSEvent unmarshal (recordCalls outcome) msgs log).1.1.BatchItemFailures =
      (msgs.filter (messageFails unmarshal outcome)).map
        (fun m => { ItemIdentifier := m.MessageId }) := by
    simp [HandleSQSEvent, hloop]
  refine ⟨rfl, hres, ?_, ?_, ?_⟩
  · rw [hres, List.length_map, List.countP_eq_length_filter]
  · rw [hres, List.map_eq_nil_iff, List.filter_eq_nil_iff]
    simp
  · intro m
    unfold messageFails
    cases hu : unmarshal m.Body with
    | none => simp
    | some ev =>
      simp only [List.any_eq_true, false_or, Option.some.injEq, exists_eq_left', reduceCtorEq]
      constructor
      · rintro ⟨r, hr, hf⟩
        refine ⟨r, hr, ?_⟩
        unfold recordFails at hf
        rcases Bool.or_eq_true _ _ ▸ hf with h | h
        · exact Or.inl (of_decide_eq_true h)
        · right
          cases ho : outcome r.S3.Bucket.Name r.S3.Object.Key with
          | error e => exact ⟨e, rfl⟩
          | ok v => rw [ho] at h; simp at h
      · rintro ⟨r, hr, hf⟩
        refine ⟨r, hr, ?_⟩
        unfold recordFails
        rcases hf with h | ⟨e, he⟩
        · simp [h]
        · simp [he]

/-- C2: first failure wins. The `ProcessImage` invocations of a batch are the
concatenation, message by message, of: nothing for a message whose body does not
parse; otherwise the records in order before the first failing record, followed
by that record when it passed the size gate and failed in the pipeline. -/
theorem HandleSQSEvent_calls_first_failure_wins
    (unmarshal : β → Option S3Event)
    (outcome : String → String → Except String ProcessResult)
    (msgs : List (SQSMessage β)) (log : CallLog) :
    (HandleSQSEvent unmarshal (recordCalls outcome) msgs log).2 =
      log ++ (msgs.map (fun m =>
        match unmarshal m.Body with
        | none => []
        | some s3Event =>
          (s3Event.Records.takeWhile (fun r => !recordFails outcome r)).map callOf ++
            (match s3Event.Records.dropWhile (fun r => !recordFails outcome r) with
             | [] => []
             | r :: _ => if r.S3.Object.Size > 52428800 then [] else [callOf r]))).flatten ∧
    (∀ (m : SQSMessage β) (l : CallLog), unmarshal m.Body = none →
      (HandleSQSEvent unmarshal (recordCalls outcome) [m] l).2 = l) ∧
    (∀ (m : SQSMessage β) (l : CallLog) (s3Event : S3Event) (pre post : List S3EventRecord)
        (bad : S3EventRecord),
      unmarshal m.Body = some s3Event → s3Event.Records = pre ++ bad :: post →
      (∀ r ∈ pre, recordFails outcome r = false) → recordFails outcome bad = true →
      (HandleSQSEvent unmarshal (recordCalls outcome) [m] l).2 =
        l ++ pre.map callOf ++
          (if bad.S3.Object.Size > 52428800 then [] else [callOf bad])) := by
  have hloop : ∀ (ms : List (SQSMessage β)) (l : CallLog),
      (HandleSQSEvent unmarshal (recordCalls outcome) ms l).2 =
        l ++ (ms.map (messageCalls unmarshal outcome)).flatten := by
    intro ms l
    simp [HandleSQSEvent, messagesLoop_recordCalls]
  refine ⟨?_, ?_, ?_⟩
  · rw [hloop]
    rfl
  · intro m l hu
    rw [hloop]
    simp [messageCalls, hu]
  · intro m l ev pre post bad hu hrec hpre hbad
    rw [hloop]
    have htw : (pre ++ bad :: post).takeWhile (fun r => !recordFails outcome r) = pre := by
      rw [List.takeWhile_append_of_pos (by simpa using hpre)]
      simp [List.takeWhile_cons, hbad]
    have hdw : (pre ++ bad :: post).dropWhile (fun r => !recordFails outcome r) = bad :: post := by
      rw [List.dropWhile_append_of_pos (by simpa using hpre)]
      simp [List.dropWhile_cons, hbad]
    simp only [messageCalls, hu, expectedCalls, hrec, htw, hdw, List.map_cons, List.map_nil,
      List.flatten_cons, List.flatten_nil, List.append_nil, List.append_assoc]

/-- Witness of C2 on a message of three records whose second record fails in
the pipeline. -/
theorem HandleSQSEvent_calls_first_failure_wins_witness :
    (HandleSQSEvent (fun b : Option S3Event => b) (recordCalls sampleOutcome)
        [{ MessageId := "m1",
           Body := some { Records := [mkRecord "in" "a.jpg" 10, mkRecord "in" "bad.jpg" 10,
                                      mkRecord "in" "c.jpg" 10] } }] []).2 =
      [] ++ [mkRecord "in" "a.jpg" 10].map callOf ++
        (if (mkRecord "in" "bad.jpg" 10).S3.Object.Size > 52428800 then []
         else [callOf (mkRecord "in" "bad.jpg" 10)]) :=
  (HandleSQSEvent_calls_first_failure_wins (fun b : Option S3Event => b) sampleOutcome [] []).2.2
    { MessageId := "m1",
      Body := some { Records := [mkRecord "in" "a.jpg" 10, mkRecord "in" "bad.jpg" 10,
                                 mkRecord "in" "c.jpg" 10] } }
    [] _ [mkRecord "in" "a.jpg" 10] [mkRecord "in" "c.jpg" 10] (mkRecord "in" "bad.jpg" 10)
    rfl rfl (by decide) (by decide)

/-- C3: the size gate. `processS3Object` returns an error without invoking
`ProcessImage` iff the declared size is strictly greater than 52428800; a record
declaring 52428801 is rejected with no invocation, a record declaring 52428800
is handed to `ProcessImage`. -/
theorem processS3Object_size_gate
    (outcome : String → String → Except String ProcessResult)
    (r : S3EventRecord) (log : CallLog) :
    (((∃ e, (processS3Object (recordCalls outcome) r log).1 = Except.error e) ∧
        (processS3Object (recordCalls outcome) r log).2 = log) ↔
      r.S3.Object.Size > 52428800) ∧
    ((processS3Object (recordCalls outcome) r log).2 = log ++ [callOf r] ↔
      r.S3.Object.Size ≤ 52428800) ∧
    ((∃ e, (processS3Object (recordCalls outcome)
          { r with S3.Object.Size := 52428801 } log).1 = Except.error e) ∧
      (processS3Object (recordCalls outcome) { r with S3.Object.Size := 52428801 } log).2 = log) ∧
    (processS3Object (recordCalls outcome) { r with S3.Object.Size := 52428800 } log).2 =
      log ++ [(r.S3.Bucket.Name, r.S3.Object.Key)] ∧
    ((processS3Object (recordCalls outcome) { r with S3.Object.Size := 52428800 } log).1 =
        Except.ok () ↔
      ∃ v, outcome r.S3.Bucket.Name r.S3.Object.Key = Except.ok v) := by
  have key : ∀ (r : S3EventRecord),
      (r.S3.Object.Size > 52428800 →
        (∃ e, (processS3Object (recordCalls outcome) r log).1 = Except.error e) ∧
          (processS3Object (recordCalls outcome) r log).2 = log) ∧
      (r.S3.Object.Size ≤ 52428800 →
        (processS3Object (recordCalls outcome) r log).2 = log ++ [callOf r] ∧
        ((processS3Object (recordCalls outcome) r log).1 = Except.ok () ↔
          ∃ v, outcome r.S3.Bucket.Name r.S3.Object.Key = Except.ok v)) := by
    intro r
    unfold processS3Object recordCalls callOf
    constructor
    · intro h
      have h2 : r.S3.Object.Size > 50 * 1024 * 1024 := by omega
      simp [h, h2]
    · intro h
      have h2 : ¬ r.S3.Object.Size > 50 * 1024 * 1024 := by omega
      simp only [h2, if_false]
      cases outcome r.S3.Bucket.Name r.S3.Object.Key <;> simp
  refine ⟨?_, ?_, ?_, ?_, ?_⟩
  · constructor
    · rintro ⟨_, hlog⟩
      by_contra hle
      have := ((key r).2 (by omega)).1
      rw [hlog] at this
      simp at this
    · exact (key r).1
  · constructor
    · intro hlog
      by_contra hgt
      have := ((key r).1 (by omega)).2
      rw [hlog] at this
      simp at this
    · exact fun h => ((key r).2 h).1
  · exact (key { r with S3.Object.Size := 52428801 }).1 (by simp)
  · exact ((key { r with S3.Object.Size := 52428800 }).2 (by simp)).1
  · exact ((key { r with S3.Object.Size := 52428800 }).2 (by simp)).2

end HandlerTheorems

/-! ## Theorems: variant dimensions -/

theorem toUint_le (n : Nat) : toUint n ≤ n := Nat.mod_le _ _

theorem toUint_eq_of_lt {n : Nat} (h : n < 2 ^ 64) : toUint n = n := Nat.mod_eq_of_lt h

/-- A wrapped quotient `uint(a * b / c)` is at most `a` when `b ≤ c`. -/
theorem wrapped_quotient_le (a b c : Nat) (hbc : b ≤ c) :
    toUint (toUint (a * b) / c) ≤ a := by
  rcases Nat.eq_zero_or_pos c with hc | hc
  · subst hc
    simp [toUint]
  · refine le_trans (toUint_le _) ?_
    apply Nat.div_le_of_le_mul
    calc toUint (a * b) ≤ a * b := toUint_le _
      _ ≤ a * c := Nat.mul_le_mul_left a hbc
      _ = c * a := Nat.mul_comm a c

/-- Bounds on the dimensions computed by `Thumbnail` when it resizes. -/
theorem thumbnailSize_bounds (maxWidth maxHeight W H : Nat)
    (hmw : 0 < maxWidth) (hW : 1 ≤ W) (hH : 1 ≤ H)
    (hbig : ¬ (maxWidth ≥ W ∧ maxHeight ≥ H)) :
    1 ≤ (thumbnailSize maxWidth maxHeight W H).1 ∧
    (thumbnailSize maxWidth maxHeight W H).1 ≤ maxWidth ∧
    (0 < maxHeight → 1 ≤ (thumbnailSize maxWidth maxHeight W H).2) ∧
    (thumbnailSize maxWidth maxHeight W H).2 ≤ maxHeight ∧
    (thumbnailSize maxWidth maxHeight W H).1 ≤ W ∧
    (thumbnailSize maxWidth maxHeight W H).2 ≤ H := by
  unfold thumbnailSize
  by_cases hw : W > maxWidth
  · have hq := wrapped_quotient_le H maxWidth W (le_of_lt hw)
    simp only [hw, if_true]
    by_cases h1 : toUint (toUint (H * maxWidth) / W) < 1
    · simp only [h1, if_true]
      by_cases h2 : 1 > maxHeight
      · have hq2 := wrapped_quotient_le maxWidth maxHeight 1 (by omega)
        simp only [h2, if_true]
        split <;> omega
      · simp only [h2, if_false]
        omega
    · simp only [h1, if_false]
      by_cases h2 : toUint (toUint (H * maxWidth) / W) > maxHeight
      · have hq2 := wrapped_quotient_le maxWidth maxHeight
          (toUint (toUint (H * maxWidth) / W)) (le_of_lt h2)
        simp only [h2, if_true]
        split <;> omega
      · simp only [h2, if_false]
        omega
  · have hh : H > maxHeight := by omega
    have hq2 := wrapped_quotient_le W maxHeight H (le_of_lt hh)
    simp only [hw, if_false, hh, if_true]
    split <;> omega

/-- The function `Resize` with non-zero target dimensions in `int` range returns an image of
exactly those dimensions. -/
theorem Resize_dims (width height : Nat) (img : Image) (interp : Interpolation)
    (hw : 0 < width) (hh : 0 < height) (hw2 : width < 2 ^ 63) (hh2 : height < 2 ^ 63)
    (hx : 1 ≤ img.Dx) (hy : 1 ≤ img.Dy) :
    (Resize width height img interp).Dx = width ∧
    (Resize width height img interp).Dy = height := by
  have e1 : uintToInt width = (width : Int) := by
    unfold uintToInt
    rw [Nat.mod_eq_of_lt (by omega), if_pos hw2]
  have e2 : uintToInt height = (height : Int) := by
    unfold uintToInt
    rw [Nat.mod_eq_of_lt (by omega), if_pos hh2]
  unfold Resize
  simp only [Nat.ne_of_gt hw, Nat.ne_of_gt hh, if_false, e1, e2]
  by_cases hsame : (width : Int) = (img.Dx : Int) ∧ (height : Int) = (img.Dy : Int)
  · rw [if_pos hsame]
    omega
  · rw [if_neg hsame, if_neg (by omega)]
    exact ⟨rfl, rfl⟩

/-- The dimensions of the image `Thumbnail` returns. -/
theorem Thumbnail_dims (maxWidth maxHeight : Nat) (img : Image) (interp : Interpolation)
    (hmw : 0 < maxWidth) (hmh : 0 < maxHeight)
    (hx : 1 ≤ img.Dx) (hy : 1 ≤ img.Dy) (hx2 : img.Dx < 2 ^ 63) (hy2 : img.Dy < 2 ^ 63) :
    ((Thumbnail maxWidth maxHeight img interp).Dx,
      (Thumbnail maxWidth maxHeight img interp).Dy) =
      (if maxWidth ≥ img.Dx ∧ maxHeight ≥ img.Dy then (img.Dx, img.Dy)
       else thumbnailSize maxWidth maxHeight img.Dx img.Dy) := by
  have ex : toUint img.Dx = img.Dx := toUint_eq_of_lt (by omega)
  have ey : toUint img.Dy = img.Dy := toUint_eq_of_lt (by omega)
  unfold Thumbnail
  simp only [ex, ey]
  by_cases hbig : maxWidth ≥ img.Dx ∧ maxHeight ≥ img.Dy
  · simp only [hbig, and_self, if_true]
  · rw [if_neg hbig, if_neg hbig]
    obtain ⟨b1, b2, b3, b4, b5, b6⟩ :=
      thumbnailSize_bounds maxWidth maxHeight img.Dx img.Dy hmw hx hy hbig
    obtain ⟨r1, r2⟩ := Resize_dims (thumbnailSize maxWidth maxHeight img.Dx img.Dy).1
      (thumbnailSize maxWidth maxHeight img.Dx img.Dy).2 img interp
      (by omega) (by have := b3 hmh; omega) (by omega) (by omega) hx hy
    rw [r1, r2]

/-- Cross-multiplied form of "the ratio is kept within one pixel" for the
second scaling step of `Thumbnail`: the height was first scaled to
`a = H * mw / W > mh`, then the width to `b = mw * mh / a`. -/
theorem two_step_ratio (mw mh W H a b : Nat) (ha : mh < a)
    (ha1 : a * W ≤ H * mw) (ha2 : H * mw < (a + 1) * W)
    (hb1 : b * a ≤ mw * mh) (hb2 : mw * mh < (b + 1) * a) :
    b * H < W * mh + W ∧ W * mh < (b + 1) * H := by
  have hapos : 0 < a := by omega
  constructor
  · apply Nat.lt_of_mul_lt_mul_left (a := a)
    calc a * (b * H) = (b * a) * H := by ring
      _ ≤ (mw * mh) * H := Nat.mul_le_mul_right H hb1
      _ = mh * (H * mw) := by ring
      _ ≤ mh * ((a + 1) * W) := Nat.mul_le_mul_left mh (le_of_lt ha2)
      _ = a * (W * mh) + mh * W := by ring
      _ < a * (W * mh) + a * W := by
        have hWpos : 0 < W := by
          rcases Nat.eq_zero_or_pos W with h0 | h0
          · subst h0
            simp at ha2
          · exact h0
        have : mh * W < a * W := Nat.mul_lt_mul_of_pos_right ha hWpos
        omega
      _ = a * (W * mh + W) := by ring
  · apply Nat.lt_of_mul_lt_mul_left (a := mw)
    have hWa : W * (mw * mh) < W * ((b + 1) * a) ∨ W = 0 := by
      rcases Nat.eq_zero_or_pos W with h0 | h0
      · exact Or.inr h0
      · exact Or.inl (Nat.mul_lt_mul_of_pos_left hb2 h0)
    rcases hWa with hWa | h0
    · calc mw * (W * mh) = W * (mw * mh) := by ring
        _ < W * ((b + 1) * a) := hWa
        _ = (b + 1) * (a * W) := by ring
        _ ≤ (b + 1) * (H * mw) := Nat.mul_le_mul_left _ ha1
        _ = mw * ((b + 1) * H) := by ring
    · subst h0
      simp at ha2

/-- Without `uint` wrap-around, the dimensions `Thumbnail` computes keep the
ratio `W / H` within one pixel, in cross-multiplied form. -/
theorem thumbnailSize_ratio (mw mh W H : Nat)
    (hmw : 0 < mw) (hmh : 0 < mh) (hW : 1 ≤ W) (hH : 1 ≤ H)
    (o1 : H * mw < 2 ^ 64) (o2 : mw * mh < 2 ^ 64) (o3 : W * mh < 2 ^ 64)
    (hbig : ¬ (mw ≥ W ∧ mh ≥ H)) :
    ((thumbnailSize mw mh W H).1 * H ≤ W * (thumbnailSize mw mh W H).2 + H ∧
      W * (thumbnailSize mw mh W H).2 ≤ (thumbnailSize mw mh W H).1 * H + H) ∨
    ((thumbnailSize mw mh W H).2 * W ≤ H * (thumbnailSize mw mh W H).1 + W ∧
      H * (thumbnailSize mw mh W H).1 ≤ (thumbnailSize mw mh W H).2 * W + W) := by
  have q1 : toUint (toUint (H * mw) / W) = H * mw / W := by
    rw [toUint_eq_of_lt o1]
    exact toUint_eq_of_lt (lt_of_le_of_lt (Nat.div_le_self _ _) o1)
  have q2 : ∀ a, toUint (toUint (mw * mh) / a) = mw * mh / a := by
    intro a
    rw [toUint_eq_of_lt o2]
    exact toUint_eq_of_lt (lt_of_le_of_lt (Nat.div_le_self _ _) o2)
  have q3 : toUint (toUint (W * mh) / H) = W * mh / H := by
    rw [toUint_eq_of_lt o3]
    exact toUint_eq_of_lt (lt_of_le_of_lt (Nat.div_le_self _ _) o3)
  unfold thumbnailSize
  by_cases hw : W > mw
  · simp only [hw, if_true, q1]
    have ha1 : H * mw / W * W ≤ H * mw := Nat.div_mul_le_self _ _
    have ha2 : H * mw < (H * mw / W + 1) * W := by
      have := Nat.lt_div_mul_add (a := H * mw) (b := W) (by omega)
      rw [Nat.add_mul, Nat.one_mul]
      exact this
    generalize H * mw / W = a at ha1 ha2
    by_cases h1 : a < 1
    · have ha0 : a = 0 := by omega
      subst ha0
      have h2 : ¬ 1 > mh := by omega
      simp only [h1, if_true, h2, if_false]
      right
      simp only [Nat.zero_add, Nat.one_mul] at ha2
      constructor <;> omega
    · simp only [h1, if_false]
      by_cases h2 : a > mh
      · simp only [h2, if_true, q2]
        have hb1 : mw * mh / a * a ≤ mw * mh := Nat.div_mul_le_self _ _
        have hb2 : mw * mh < (mw * mh / a + 1) * a := by
          have := Nat.lt_div_mul_add (a := mw * mh) (b := a) (by omega)
          rw [Nat.add_mul, Nat.one_mul]
          exact this
        generalize mw * mh / a = b at hb1 hb2
        by_cases hb : b < 1
        · have hb0 : b = 0 := by omega
          subst hb0
          simp only [hb, if_true]
          simp only [Nat.zero_add, Nat.one_mul] at hb2
          have hlt : W * mh < H := by
            apply Nat.lt_of_mul_lt_mul_left (a := mw)
            calc mw * (W * mh) = (mw * mh) * W := by ring
              _ < a * W := Nat.mul_lt_mul_of_pos_right hb2 (by omega)
              _ ≤ H * mw := ha1
              _ = mw * H := Nat.mul_comm _ _
          left
          constructor <;> omega
        · simp only [hb, if_false]
          obtain ⟨u1, u2⟩ := two_step_ratio mw mh W H a b h2 ha1 ha2 hb1 hb2
          rw [Nat.add_mul, Nat.one_mul] at u2
          by_cases hcmp : W * mh ≤ b * H
          · right
            constructor
            · rw [Nat.mul_comm mh W, Nat.mul_comm H b]
              omega
            · rw [Nat.mul_comm mh W, Nat.mul_comm H b]
              omega
          · left
            constructor <;> omega
      · simp only [h2, if_false]
        right
        rw [Nat.add_mul, Nat.one_mul] at ha2
        constructor <;> omega
  · have hh : H > mh := by omega
    simp only [hw, if_false, hh, if_true, q3]
    have hb1 : W * mh / H * H ≤ W * mh := Nat.div_mul_le_self _ _
    have hb2 : W * mh < W * mh / H * H + H := Nat.lt_div_mul_add (by omega)
    generalize W * mh / H = b at hb1 hb2
    left
    by_cases hb : b < 1
    · have hb0 : b = 0 := by omega
      subst hb0
      simp only [hb, if_true]
      simp only [Nat.zero_mul, Nat.zero_add] at hb2
      constructor <;> omega
    · simp only [hb, if_false]
      constructor <;> omega

/-- From the cross-multiplied bound to the bound on the quotient. -/
theorem abs_sub_div_le_one (w h W H : Nat) (hH : 0 < H)
    (h1 : w * H ≤ W * h + H) (h2 : W * h ≤ w * H + H) :
    |(w : ℚ) - (W : ℚ) * (h : ℚ) / (H : ℚ)| ≤ 1 := by
  have hHq : (0 : ℚ) < (H : ℚ) := by exact_mod_cast hH
  have e : (w : ℚ) - (W : ℚ) * (h : ℚ) / (H : ℚ) =
      ((w : ℚ) * (H : ℚ) - (W : ℚ) * (h : ℚ)) / (H : ℚ) := by
    field_simp
  have c1 : (w : ℚ) * (H : ℚ) ≤ (W : ℚ) * (h : ℚ) + (H : ℚ) := by exact_mod_cast h1
  have c2 : (W : ℚ) * (h : ℚ) ≤ (w : ℚ) * (H : ℚ) + (H : ℚ) := by exact_mod_cast h2
  rw [e, abs_div, abs_of_pos hHq, div_le_one hHq, abs_le]
  constructor <;> linarith

/-- The image `Thumbnail` returns keeps the ratio of its input within one
pixel, provided the products the code forms do not wrap around. -/
theorem Thumbnail_ratio (mw mh : Nat) (img : Image) (interp : Interpolation)
    (hmw : 0 < mw) (hmh : 0 < mh)
    (hx : 1 ≤ img.Dx) (hy : 1 ≤ img.Dy) (hx2 : img.Dx < 2 ^ 63) (hy2 : img.Dy < 2 ^ 63)
    (o1 : img.Dy * mw < 2 ^ 64) (o2 : mw * mh < 2 ^ 64) (o3 : img.Dx * mh < 2 ^ 64) :
    |((Thumbnail mw mh img interp).Dx : ℚ) -
        (img.Dx : ℚ) * ((Thumbnail mw mh img interp).Dy : ℚ) / (img.Dy : ℚ)| ≤ 1 ∨
    |((Thumbnail mw mh img interp).Dy : ℚ) -
        (img.Dy : ℚ) * ((Thumbnail mw mh img interp).Dx : ℚ) / (img.Dx : ℚ)| ≤ 1 := by
  have hd := Thumbnail_dims mw mh img interp hmw hmh hx hy hx2 hy2
  by_cases hbig : mw ≥ img.Dx ∧ mh ≥ img.Dy
  · rw [if_pos hbig] at hd
    have d1 : (Thumbnail mw mh img interp).Dx = img.Dx := congrArg Prod.fst hd
    have d2 : (Thumbnail mw mh img interp).Dy = img.Dy := congrArg Prod.snd hd
    left
    rw [d1, d2]
    exact abs_sub_div_le_one _ _ _ _ (by omega) (by omega) (by omega)
  · rw [if_neg hbig] at hd
    have d1 : (Thumbnail mw mh img interp).Dx = (thumbnailSize mw mh img.Dx img.Dy).1 :=
      congrArg Prod.fst hd
    have d2 : (Thumbnail mw mh img interp).Dy = (thumbnailSize mw mh img.Dx img.Dy).2 :=
      congrArg Prod.snd hd
    rw [d1, d2]
    rcases thumbnailSize_ratio mw mh img.Dx img.Dy hmw hmh hx hy o1 o2 o3 hbig with
      ⟨r1, r2⟩ | ⟨r1, r2⟩
    · exact Or.inl (abs_sub_div_le_one _ _ _ _ (by omega) r1 r2)
    · exact Or.inr (abs_sub_div_le_one _ _ _ _ (by omega) r1 r2)

/-- C6: aspect-ratio preservation. For a decoded image of size `W × H` with
`W, H ≥ 1` (and below `2 ^ 54`, far above what the decoders produce), the
dimensions `w × h` that `resize.Thumbnail` gives for the bounds 200×200 and
800×600 satisfy `|w - W * h / H| ≤ 1` or `|h - H * w / W| ≤ 1`. -/
theorem Thumbnail_keeps_aspect_ratio (img : Image) (interp : Interpolation)
    (hx : 1 ≤ img.Dx) (hy : 1 ≤ img.Dy) (hx2 : img.Dx < 2 ^ 54) (hy2 : img.Dy < 2 ^ 54) :
    (|((Thumbnail ThumbnailWidth ThumbnailHeight img interp).Dx : ℚ) -
        (img.Dx : ℚ) * ((Thumbnail ThumbnailWidth ThumbnailHeight img interp).Dy : ℚ) /
          (img.Dy : ℚ)| ≤ 1 ∨
      |((Thumbnail ThumbnailWidth ThumbnailHeight img interp).Dy : ℚ) -
        (img.Dy : ℚ) * ((Thumbnail ThumbnailWidth ThumbnailHeight img interp).Dx : ℚ) /
          (img.Dx : ℚ)| ≤ 1) ∧
    (|((Thumbnail MediumWidth MediumHeight img interp).Dx : ℚ) -
        (img.Dx : ℚ) * ((Thumbnail MediumWidth MediumHeight img interp).Dy : ℚ) /
          (img.Dy : ℚ)| ≤ 1 ∨
      |((Thumbnail MediumWidth MediumHeight img interp).Dy : ℚ) -
        (img.Dy : ℚ) * ((Thumbnail MediumWidth MediumHeight img interp).Dx : ℚ) /
          (img.Dx : ℚ)| ≤ 1) := by
  have p54 : (2 : Nat) ^ 54 = 18014398509481984 := by norm_num
  have p63 : (2 : Nat) ^ 63 = 9223372036854775808 := by norm_num
  have p64 : (2 : Nat) ^ 64 = 18446744073709551616 := by norm_num
  rw [p54] at hx2 hy2
  constructor
  · apply Thumbnail_ratio <;> (try simp only [ThumbnailWidth, ThumbnailHeight, p63, p64]) <;> omega
  · apply Thumbnail_ratio <;> (try simp only [MediumWidth, MediumHeight, p63, p64]) <;> omega

/-- Witness of C6 on a 1920×1080 image. -/
theorem Thumbnail_keeps_aspect_ratio_witness :
    (1 ≤ 1920 ∧ 1 ≤ 1080 ∧ 1920 < 2 ^ 54 ∧ 1080 < 2 ^ 54) ∧
    ((|((Thumbnail ThumbnailWidth ThumbnailHeight ⟨1920, 1080, []⟩ sampleInterp).Dx : ℚ) -
        ((1920 : Nat) : ℚ) *
          ((Thumbnail ThumbnailWidth ThumbnailHeight ⟨1920, 1080, []⟩ sampleInterp).Dy : ℚ) /
          ((1080 : Nat) : ℚ)| ≤ 1 ∨
      |((Thumbnail ThumbnailWidth ThumbnailHeight ⟨1920, 1080, []⟩ sampleInterp).Dy : ℚ) -
        ((1080 : Nat) : ℚ) *
          ((Thumbnail ThumbnailWidth ThumbnailHeight ⟨1920, 1080, []⟩ sampleInterp).Dx : ℚ) /
          ((1920 : Nat) : ℚ)| ≤ 1) ∧
    (|((Thumbnail MediumWidth MediumHeight ⟨1920, 1080, []⟩ sampleInterp).Dx : ℚ) -
        ((1920 : Nat) : ℚ) *
          ((Thumbnail MediumWidth MediumHeight ⟨1920, 1080, []⟩ sampleInterp).Dy : ℚ) /
          ((1080 : Nat) : ℚ)| ≤ 1 ∨
      |((Thumbnail MediumWidth MediumHeight ⟨1920, 1080, []⟩ sampleInterp).Dy : ℚ) -
        ((1080 : Nat) : ℚ) *
          ((Thumbnail MediumWidth MediumHeight ⟨1920, 1080, []⟩ sampleInterp).Dx : ℚ) /
          ((1920 : Nat) : ℚ)| ≤ 1)) :=
  ⟨by decide,
    Thumbnail_keeps_aspect_ratio ⟨1920, 1080, []⟩ sampleInterp (by decide) (by decide)
      (by decide) (by decide)⟩

/-- C7: bounding box. For a decoded image of size `W × H` with `W, H ≥ 1` and
bounds `maxW, maxH > 0`, the dimensions of the variant satisfy `1 ≤ w ≤ maxW`,
`1 ≤ h ≤ maxH`, `w ≤ W` and `h ≤ H`; the thumbnail fits in 200×200 and the
medium variant in 800×600. -/
theorem Thumbnail_within_bounding_box (maxWidth maxHeight : Nat) (img : Image)
    (interp : Interpolation) (hmw : 0 < maxWidth) (hmh : 0 < maxHeight)
    (hx : 1 ≤ img.Dx) (hy : 1 ≤ img.Dy) (hx2 : img.Dx < 2 ^ 63) (hy2 : img.Dy < 2 ^ 63) :
    (1 ≤ (Thumbnail maxWidth maxHeight img interp).Dx ∧
      (Thumbnail maxWidth maxHeight img interp).Dx ≤ maxWidth ∧
      1 ≤ (Thumbnail maxWidth maxHeight img interp).Dy ∧
      (Thumbnail maxWidth maxHeight img interp).Dy ≤ maxHeight ∧
      (Thumbnail maxWidth maxHeight img interp).Dx ≤ img.Dx ∧
      (Thumbnail maxWidth maxHeight img interp).Dy ≤ img.Dy) ∧
    ((Thumbnail ThumbnailWidth ThumbnailHeight img interp).Dx ≤ 200 ∧
      (Thumbnail ThumbnailWidth ThumbnailHeight img interp).Dy ≤ 200) ∧
    ((Thumbnail MediumWidth MediumHeight img interp).Dx ≤ 800 ∧
      (Thumbnail MediumWidth MediumHeight img interp).Dy ≤ 600) := by
  have gen : ∀ mw mh : Nat, 0 < mw → 0 < mh →
      (1 ≤ (Thumbnail mw mh img interp).Dx ∧ (Thumbnail mw mh img interp).Dx ≤ mw ∧
        1 ≤ (Thumbnail mw mh img interp).Dy ∧ (Thumbnail mw mh img interp).Dy ≤ mh ∧
        (Thumbnail mw mh img interp).Dx ≤ img.Dx ∧
        (Thumbnail mw mh img interp).Dy ≤ img.Dy) := by
    intro mw mh h1 h2
    have hd := Thumbnail_dims mw mh img interp h1 h2 hx hy hx2 hy2
    by_cases hbig : mw ≥ img.Dx ∧ mh ≥ img.Dy
    · rw [if_pos hbig] at hd
      have d1 : (Thumbnail mw mh img interp).Dx = img.Dx := congrArg Prod.fst hd
      have d2 : (Thumbnail mw mh img interp).Dy = img.Dy := congrArg Prod.snd hd
      omega
    · rw [if_neg hbig] at hd
      have d1 : (Thumbnail mw mh img interp).Dx = (thumbnailSize mw mh img.Dx img.Dy).1 :=
        congrArg Prod.fst hd
      have d2 : (Thumbnail mw mh img interp).Dy = (thumbnailSize mw mh img.Dx img.Dy).2 :=
        congrArg Prod.snd hd
      obtain ⟨b1, b2, b3, b4, b5, b6⟩ := thumbnailSize_bounds mw mh img.Dx img.Dy h1 hx hy hbig
      have := b3 h2
      omega
  refine ⟨gen maxWidth maxHeight hmw hmh, ?_, ?_⟩
  · have := gen ThumbnailWidth ThumbnailHeight (by decide) (by decide)
    simp only [ThumbnailWidth, ThumbnailHeight] at this ⊢
    omega
  · have := gen MediumWidth MediumHeight (by decide) (by decide)
    simp only [MediumWidth, MediumHeight] at this ⊢
    omega

/-- Witness of C7 on a 1000×1000 image and the bounds 800×600. -/
theorem Thumbnail_within_bounding_box_witness :
    (0 < 800 ∧ 0 < 600 ∧ 1 ≤ 1000 ∧ 1000 < 2 ^ 63) ∧
    (Thumbnail 800 600 ⟨1000, 1000, []⟩ sampleInterp).Dx ≤ 800 ∧
    (Thumbnail 800 600 ⟨1000, 1000, []⟩ sampleInterp).Dy ≤ 600 :=
  ⟨by decide,
    (Thumbnail_within_bounding_box 800 600 ⟨1000, 1000, []⟩ sampleInterp (by decide) (by decide)
      (by decide) (by decide) (by decide) (by decide)).1.2.1,
    (Thumbnail_within_bounding_box 800 600 ⟨1000, 1000, []⟩ sampleInterp (by decide) (by decide)
      (by decide) (by decide) (by decide) (by decide)).1.2.2.2.1⟩

/-- C8: no upscaling. When `W ≤ maxW` and `H ≤ maxH`, `Thumbnail` returns the
image itself, so the dimensions of the variant are `W × H` exactly and the encoder
receives the unresized image. -/
theorem Thumbnail_no_upscaling (maxWidth maxHeight : Nat) (img : Image)
    (interp : Interpolation) (hW : img.Dx ≤ maxWidth) (hH : img.Dy ≤ maxHeight) :
    Thumbnail maxWidth maxHeight img interp = img ∧
    (Thumbnail maxWidth maxHeight img interp).Dx = img.Dx ∧
    (Thumbnail maxWidth maxHeight img interp).Dy = img.Dy := by
  have e : Thumbnail maxWidth maxHeight img interp = img := by
    unfold Thumbnail
    have h1 := toUint_le img.Dx
    have h2 := toUint_le img.Dy
    rw [if_pos ⟨by omega, by omega⟩]
  rw [e]
  exact ⟨rfl, rfl, rfl⟩

/-- Witness of C8 on a 640×480 image and the bounds 800×600. -/
theorem Thumbnail_no_upscaling_witness :
    (640 ≤ 800 ∧ 480 ≤ 600) ∧
    Thumbnail 800 600 ⟨640, 480, [7]⟩ sampleInterp = ⟨640, 480, [7]⟩ :=
  ⟨by decide, (Thumbnail_no_upscaling 800 600 ⟨640, 480, [7]⟩ sampleInterp
    (by decide) (by decide)).1⟩

/-! ## Theorems: the image pipeline -/

/-- The calls `createAndUploadVariant` issues: one encoder call, chosen by
whether the content type contains `png`, then one store request when the
encoder succeeded. -/
theorem PutObject_cases (c : S3Client) (bucket key : String) (body : Bytes)
    (contentType : String) (w : World) :
    (∃ err, PutObject c bucket key body contentType w =
      (Except.error err,
        { objects := w.objects,
          calls := w.calls ++ [Call.PutObject bucket key body contentType] })) ∨
    PutObject c bucket key body contentType w =
      (Except.ok (),
        { objects := fun b k =>
            if b = bucket ∧ k = key then some { Body := body, ContentType := some contentType }
            else w.objects b k,
          calls := w.calls ++ [Call.PutObject bucket key body contentType] }) := by
  unfold PutObject
  cases c.putFails w bucket key body contentType with
  | some err => exact Or.inl ⟨err, rfl⟩
  | none => exact Or.inr rfl

/-- The encoder step of `createAndUploadVariant`: the encoder result, the
content type to store with, and the encoder call. -/
theorem createAndUploadVariant_unfold (p : ImageProcessor) (lib : Codecs) (img : Image)
    (key : String) (width height : Nat) (contentType : String) (w : World) :
    ∃ (enc : Except String Bytes) (cty : String) (call : Call),
      (if stringsContains contentType "png" = true then
          enc = lib.pngEncode (Thumbnail width height img lib.Lanczos3) ∧ cty = contentType ∧
            call = Call.pngEncode (Thumbnail width height img lib.Lanczos3)
        else
          enc = lib.jpegEncode (Thumbnail width height img lib.Lanczos3) 85 ∧
            cty = "image/jpeg" ∧
            call = Call.jpegEncode (Thumbnail width height img lib.Lanczos3) 85) ∧
      createAndUploadVariant p lib img key width height contentType w =
        (match enc with
         | Except.error err =>
           (Except.error ("erro ao codificar imagem: " ++ err),
             { objects := w.objects, calls := w.calls ++ [call] })
         | Except.ok buf =>
           match PutObject p.s3Client p.outputBucket key buf cty
               { objects := w.objects, calls := w.calls ++ [call] } with
           | (Except.error err, w2) => (Except.error ("erro ao fazer upload: " ++ err), w2)
           | (Except.ok _, w2) => (Except.ok (), w2)) := by
  unfold createAndUploadVariant JPEGQuality
  by_cases hc : stringsContains contentType "png" = true
  · refine ⟨lib.pngEncode (Thumbnail width height img lib.Lanczos3), contentType,
      Call.pngEncode (Thumbnail width height img lib.Lanczos3), ?_, ?_⟩
    · simp [hc]
    · simp only [hc, if_true]
      cases lib.pngEncode (Thumbnail width height img lib.Lanczos3) <;> rfl
  · refine ⟨lib.jpegEncode (Thumbnail width height img lib.Lanczos3) 85, "image/jpeg",
      Call.jpegEncode (Thumbnail width height img lib.Lanczos3) 85, ?_, ?_⟩
    · simp [hc]
    · simp only [hc, if_false]
      cases lib.jpegEncode (Thumbnail width height img lib.Lanczos3) 85 <;> rfl

/-- The calls `createAndUploadVariant` issues: one encoder call, chosen by
whether the content type contains `png`, then one store request when the
encoder succeeded. -/
theorem createAndUploadVariant_calls (p : ImageProcessor) (lib : Codecs) (img : Image)
    (key : String) (width height : Nat) (contentType : String) (w : World) :
    (createAndUploadVariant p lib img key width height contentType w).2.calls =
      w.calls ++
        (if stringsContains contentType "png" = true then
          Call.pngEncode (Thumbnail width height img lib.Lanczos3) ::
            (match lib.pngEncode (Thumbnail width height img lib.Lanczos3) with
             | Except.ok buf => [Call.PutObject p.outputBucket key buf contentType]
             | Except.error _ => [])
        else
          Call.jpegEncode (Thumbnail width height img lib.Lanczos3) 85 ::
            (match lib.jpegEncode (Thumbnail width height img lib.Lanczos3) 85 with
             | Except.ok buf => [Call.PutObject p.outputBucket key buf "image/jpeg"]
             | Except.error _ => [])) := by
  obtain ⟨enc, cty, call, hsel, heq⟩ :=
    createAndUploadVariant_unfold p lib img key width height contentType w
  rw [heq]
  by_cases hc : stringsContains contentType "png" = true
  · rw [if_pos hc] at hsel
    obtain ⟨h1, h2, h3⟩ := hsel
    rw [if_pos hc, ← h1]
    subst h2 h3
    cases enc with
    | error e => simp
    | ok buf =>
      rcases PutObject_cases p.s3Client p.outputBucket key buf cty
        { objects := w.objects,
          calls := w.calls ++ [Call.pngEncode (Thumbnail width height img lib.Lanczos3)] }
        with ⟨err, hp⟩ | hp <;> simp [hp]
  · rw [if_neg hc] at hsel
    obtain ⟨h1, h2, h3⟩ := hsel
    rw [if_neg hc, ← h1]
    subst h2 h3
    cases enc with
    | error e => simp
    | ok buf =>
      rcases PutObject_cases p.s3Client p.outputBucket key buf "image/jpeg"
        { objects := w.objects,
          calls := w.calls ++ [Call.jpegEncode (Thumbnail width height img lib.Lanczos3) 85] }
        with ⟨err, hp⟩ | hp <;> simp [hp]

/-- The objects after `createAndUploadVariant`: unchanged on an error; on
success only `(outputBucket, key)` has changed and it holds an object. -/
theorem createAndUploadVariant_objects (p : ImageProcessor) (lib : Codecs) (img : Image)
    (key : String) (width height : Nat) (contentType : String) (w : World) :
    ((∃ e, (createAndUploadVariant p lib img key width height contentType w).1 =
          Except.error e) ∧
        (createAndUploadVariant p lib img key width height contentType w).2.objects =
          w.objects) ∨
    ((createAndUploadVariant p lib img key width height contentType w).1 = Except.ok () ∧
      (∃ body cty,
        (createAndUploadVariant p lib img key width height contentType w).2.objects
            p.outputBucket key = some { Body := body, ContentType := some cty } ∧
        (createAndUploadVariant p lib img key width height contentType w).2.calls.getLast? =
          some (Call.PutObject p.outputBucket key body cty)) ∧
      (∀ b k, ¬ (b = p.outputBucket ∧ k = key) →
        (createAndUploadVariant p lib img key width height contentType w).2.objects b k =
          w.objects b k)) := by
  obtain ⟨enc, cty, call, _, heq⟩ :=
    createAndUploadVariant_unfold p lib img key width height contentType w
  rw [heq]
  cases enc with
  | error e => exact Or.inl ⟨⟨_, rfl⟩, rfl⟩
  | ok buf =>
    rcases PutObject_cases p.s3Client p.outputBucket key buf cty
      { objects := w.objects, calls := w.calls ++ [call] } with ⟨err, hp⟩ | hp
    · left
      simp [hp]
    · right
      dsimp only
      rw [hp]
      refine ⟨rfl, ⟨buf, cty, by simp, by simp⟩, ?_⟩
      intro b k hbk
      simp [hbk]

/-- The method `downloadImage` stores nothing: the objects are unchanged and the calls it
adds are a fetch and at most one decoder call. -/
theorem downloadImage_frame (p : ImageProcessor) (lib : Codecs) (bucket key : String)
    (w : World) :
    (downloadImage p lib bucket key w).2.objects = w.objects ∧
    ∃ extra, (downloadImage p lib bucket key w).2.calls = w.calls ++ extra ∧
      ∀ c ∈ extra, isStore c = false := by
  unfold downloadImage GetObject
  cases p.s3Client.getFails w bucket key with
  | some err => exact ⟨rfl, [Call.GetObject bucket key], rfl, by simp [isStore]⟩
  | none =>
    simp only
    cases w.objects bucket key with
    | none => exact ⟨rfl, [Call.GetObject bucket key], rfl, by simp [isStore]⟩
    | some obj =>
      simp only
      split_ifs with h1 h2
      · cases lib.jpegDecode obj.Body <;>
          exact ⟨rfl, [Call.GetObject bucket key, Call.jpegDecode obj.Body], by simp,
            by simp [isStore]⟩
      · cases lib.pngDecode obj.Body <;>
          exact ⟨rfl, [Call.GetObject bucket key, Call.pngDecode obj.Body], by simp,
            by simp [isStore]⟩
      · cases lib.imageDecode obj.Body <;>
          exact ⟨rfl, [Call.GetObject bucket key, Call.imageDecode obj.Body], by simp,
            by simp [isStore]⟩

/-- A key with a prefix prepended is a different key. -/
theorem prefixed_key_ne (pre key : String) (h : 0 < pre.length) : pre ++ key ≠ key := by
  intro e
  have := congrArg String.length e
  rw [String.length_append] at this
  omega

/-- The method `ProcessImage` written in terms of its three steps. -/
theorem ProcessImage_steps (p : ImageProcessor) (lib : Codecs) (bucket key : String)
    (w : World) :
    ProcessImage p lib bucket key w =
      (match (downloadImage p lib bucket key w).1 with
       | Except.error err =>
         (Except.error ("erro ao baixar imagem: " ++ err), (downloadImage p lib bucket key w).2)
       | Except.ok (img, contentType) =>
         match (thumbnailStep p lib bucket key w img contentType).1 with
         | Except.error err =>
           (Except.error ("erro ao criar thumbnail: " ++ err),
             (thumbnailStep p lib bucket key w img contentType).2)
         | Except.ok _ =>
           match (mediumStep p lib bucket key w img contentType).1 with
           | Except.error err =>
             (Except.error ("erro ao criar versão média: " ++ err),
               (mediumStep p lib bucket key w img contentType).2)
           | Except.ok _ =>
             (Except.ok { ThumbnailKey := "thumbnails/" ++ key, MediumKey := "medium/" ++ key,
                          OriginalKey := key },
               (mediumStep p lib bucket key w img contentType).2)) := by
  unfold ProcessImage mediumStep thumbnailStep
  rcases hd : downloadImage p lib bucket key w with ⟨r, w1⟩
  cases r with
  | error err => rfl
  | ok v =>
    obtain ⟨img, ct⟩ := v
    simp only
    rcases ht : createAndUploadVariant p lib img ("thumbnails/" ++ key) ThumbnailWidth
      ThumbnailHeight ct w1 with ⟨r2, w2⟩
    cases r2 with
    | error err => rfl
    | ok u =>
      simp only
      rcases hm : createAndUploadVariant p lib img ("medium/" ++ key) MediumWidth
        MediumHeight ct w2 with ⟨r3, w3⟩
      cases r3 with
      | error err => rfl
      | ok u2 => rfl

/-- What `createAndUploadVariant` leaves untouched: every object other than
`(outputBucket, key)`, and it issues no store request for another target. -/
theorem createAndUploadVariant_frame (p : ImageProcessor) (lib : Codecs) (img : Image)
    (key : String) (width height : Nat) (contentType : String) (w : World) :
    (∀ b k, ¬ (b = p.outputBucket ∧ k = key) →
      (createAndUploadVariant p lib img key width height contentType w).2.objects b k =
        w.objects b k) ∧
    ∃ extra,
      (createAndUploadVariant p lib img key width height contentType w).2.calls =
        w.calls ++ extra ∧
      ∀ c ∈ extra, ∀ b k body cty, c = Call.PutObject b k body cty →
        b = p.outputBucket ∧ k = key := by
  constructor
  · intro b k hbk
    rcases createAndUploadVariant_objects p lib img key width height contentType w with
      ⟨_, h⟩ | ⟨_, _, h⟩
    · rw [h]
    · exact h b k hbk
  · refine ⟨_, createAndUploadVariant_calls p lib img key width height contentType w, ?_⟩
    intro c hc b k body cty hcall
    subst hcall
    split_ifs at hc
    · cases hpe : lib.pngEncode (Thumbnail width height img lib.Lanczos3) with
      | error e => rw [hpe] at hc; simp at hc
      | ok buf =>
        rw [hpe] at hc
        simp at hc
        exact ⟨hc.1, hc.2.1⟩
    · cases hje : lib.jpegEncode (Thumbnail width height img lib.Lanczos3) 85 with
      | error e => rw [hje] at hc; simp at hc
      | ok buf =>
        rw [hje] at hc
        simp at hc
        exact ⟨hc.1, hc.2.1⟩

/-- What `ProcessImage` leaves untouched, and what it returns on success. -/
theorem ProcessImage_frame (p : ImageProcessor) (lib : Codecs) (bucket key : String)
    (w : World) :
    (∀ b k, ¬ (b = p.outputBucket ∧ (k = "thumbnails/" ++ key ∨ k = "medium/" ++ key)) →
      (ProcessImage p lib bucket key w).2.objects b k = w.objects b k) ∧
    (∃ extra, (ProcessImage p lib bucket key w).2.calls = w.calls ++ extra ∧
      ∀ c ∈ extra, storesElsewhere p.outputBucket key c = false) ∧
    (∀ v, (ProcessImage p lib bucket key w).1 = Except.ok v →
      v = { ThumbnailKey := "thumbnails/" ++ key, MediumKey := "medium/" ++ key,
            OriginalKey := key }) := by
  obtain ⟨dobj, e1, dcalls, dstore⟩ := downloadImage_frame p lib bucket key w
  have hse1 : ∀ c ∈ e1, storesElsewhere p.outputBucket key c = false := by
    intro c hc
    have := dstore c hc
    cases c <;> simp_all [isStore, storesElsewhere]
  rw [ProcessImage_steps]
  cases hd : (downloadImage p lib bucket key w).1 with
  | error err =>
    refine ⟨fun b k _ => by simp [dobj], ⟨e1, dcalls, hse1⟩, ?_⟩
    intro v hv
    simp at hv
  | ok v0 =>
    obtain ⟨img, ct⟩ := v0
    obtain ⟨tobj, e2, tcalls, tstore⟩ := createAndUploadVariant_frame p lib img
      ("thumbnails/" ++ key) ThumbnailWidth ThumbnailHeight ct (downloadImage p lib bucket key w).2
    have hse2 : ∀ c ∈ e2, storesElsewhere p.outputBucket key c = false := by
      intro c hc
      cases c with
      | PutObject b k body cty =>
        obtain ⟨hb, hk⟩ := tstore _ hc b k body cty rfl
        simp [storesElsewhere, hb, hk]
      | _ => rfl
    have tobj2 : ∀ b k,
        ¬ (b = p.outputBucket ∧ (k = "thumbnails/" ++ key ∨ k = "medium/" ++ key)) →
        (thumbnailStep p lib bucket key w img ct).2.objects b k = w.objects b k := by
      intro b k hbk
      unfold thumbnailStep
      rw [tobj b k (fun h => hbk ⟨h.1, Or.inl h.2⟩), dobj]
    have tcalls2 : (thumbnailStep p lib bucket key w img ct).2.calls = w.calls ++ (e1 ++ e2) := by
      unfold thumbnailStep
      rw [tcalls, dcalls, List.append_assoc]
    have hse12 : ∀ c ∈ e1 ++ e2, storesElsewhere p.outputBucket key c = false := by
      intro c hc
      rcases List.mem_append.mp hc with h | h
      · exact hse1 c h
      · exact hse2 c h
    simp only
    cases ht : (thumbnailStep p lib bucket key w img ct).1 with
    | error err =>
      refine ⟨tobj2, ⟨e1 ++ e2, tcalls2, hse12⟩, ?_⟩
      intro v hv
      simp at hv
    | ok u =>
      obtain ⟨mobj, e3, mcalls, mstore⟩ := createAndUploadVariant_frame p lib img
        ("medium/" ++ key) MediumWidth MediumHeight ct (thumbnailStep p lib bucket key w img ct).2
      have hse3 : ∀ c ∈ e3, storesElsewhere p.outputBucket key c = false := by
        intro c hc
        cases c with
        | PutObject b k body cty =>
          obtain ⟨hb, hk⟩ := mstore _ hc b k body cty rfl
          simp [storesElsewhere, hb, hk]
        | _ => rfl
      have mobj2 : ∀ b k,
          ¬ (b = p.outputBucket ∧ (k = "thumbnails/" ++ key ∨ k = "medium/" ++ key)) →
          (mediumStep p lib bucket key w img ct).2.objects b k = w.objects b k := by
        intro b k hbk
        unfold mediumStep
        rw [mobj b k (fun h => hbk ⟨h.1, Or.inr h.2⟩)]
        exact tobj2 b k hbk
      have mcalls2 : (mediumStep p lib bucket key w img ct).2.calls =
          w.calls ++ (e1 ++ e2 ++ e3) := by
        unfold mediumStep
        rw [mcalls, tcalls2, List.append_assoc]
      have hse123 : ∀ c ∈ e1 ++ e2 ++ e3, storesElsewhere p.outputBucket key c = false := by
        intro c hc
        rcases List.mem_append.mp hc with h | h
        · exact hse12 c h
        · exact hse3 c h
      simp only
      cases hm : (mediumStep p lib bucket key w img ct).1 with
      | error err =>
        refine ⟨mobj2, ⟨_, mcalls2, hse123⟩, ?_⟩
        intro v hv
        simp at hv
      | ok u2 =>
        refine ⟨mobj2, ⟨_, mcalls2, hse123⟩, ?_⟩
        intro v hv
        simp at hv
        exact hv.symm

/-- C5 fails as stated: the object `photo.png`, stored with the content type
`binary/octet-stream`, has an extension containing `png` and is decoded by the
PNG decoder, and both of its variants are encoded as JPEG and stored with the
content type `image/jpeg`. -/
theorem format_policy_extension_counterexample :
    stringsContains (filepathExt "photo.png") "png" = true ∧
    (ProcessImage ⟨sampleClient "", "out"⟩ sampleCodecs "in" "photo.png" sampleWorld).1 =
      Except.ok { ThumbnailKey := "thumbnails/photo.png", MediumKey := "medium/photo.png",
                  OriginalKey := "photo.png" } ∧
    (ProcessImage ⟨sampleClient "", "out"⟩ sampleCodecs "in" "photo.png" sampleWorld).2.calls =
      [Call.GetObject "in" "photo.png", Call.pngDecode [137, 80, 78, 71],
       Call.jpegEncode ⟨200, 200, []⟩ 85,
       Call.PutObject "out" "thumbnails/photo.png" [2] "image/jpeg",
       Call.jpegEncode ⟨600, 600, []⟩ 85,
       Call.PutObject "out" "medium/photo.png" [2] "image/jpeg"] :=
  ⟨by decide, rfl, by decide⟩

/-- C5, amended: the format is chosen by the fetched content type alone.
When it contains `png`, `createAndUploadVariant` calls the PNG encoder on the
resized image and stores the result under the fetched content type; otherwise,
whatever the key, it calls the JPEG encoder with quality 85 and stores the
result under `image/jpeg`. Exactly one encoder is called. -/
theorem createAndUploadVariant_format_policy (p : ImageProcessor) (lib : Codecs) (img : Image)
    (key : String) (width height : Nat) (contentType : String) (w : World) :
    (createAndUploadVariant p lib img key width height contentType w).2.calls =
      w.calls ++
        (if stringsContains contentType "png" = true then
          Call.pngEncode (Thumbnail width height img lib.Lanczos3) ::
            (match lib.pngEncode (Thumbnail width height img lib.Lanczos3) with
             | Except.ok buf => [Call.PutObject p.outputBucket key buf contentType]
             | Except.error _ => [])
        else
          Call.jpegEncode (Thumbnail width height img lib.Lanczos3) 85 ::
            (match lib.jpegEncode (Thumbnail width height img lib.Lanczos3) 85 with
             | Except.ok buf => [Call.PutObject p.outputBucket key buf "image/jpeg"]
             | Except.error _ => [])) ∧
    (∃ extra, (createAndUploadVariant p lib img key width height contentType w).2.calls =
        w.calls ++ extra ∧
      extra.countP (fun c =>
        match c with
        | Call.pngEncode _ => true
        | Call.jpegEncode _ _ => true
        | _ => false) = 1) := by
  refine ⟨createAndUploadVariant_calls p lib img key width height contentType w, _,
    createAndUploadVariant_calls p lib img key width height contentType w, ?_⟩
  split_ifs
  · cases lib.pngEncode (Thumbnail width height img lib.Lanczos3) <;> simp [List.countP_cons]
  · cases lib.jpegEncode (Thumbnail width height img lib.Lanczos3) 85 <;>
      simp [List.countP_cons]

/-- C10: addressing and preservation of the original. The store requests
`ProcessImage` issues all target the output bucket at `thumbnails/` + key or
`medium/` + key; on success these keys and the original key are returned;
neither key equals the original key, and every object at another place, the
one at `(bucket, key)` included, is left as it was. -/
theorem ProcessImage_addressing (p : ImageProcessor) (lib : Codecs) (bucket key : String)
    (w : World) :
    (∃ extra, (ProcessImage p lib bucket key w).2.calls = w.calls ++ extra ∧
      ∀ c ∈ extra, ∀ b k body cty, c = Call.PutObject b k body cty →
        b = p.outputBucket ∧ (k = "thumbnails/" ++ key ∨ k = "medium/" ++ key)) ∧
    (∀ v, (ProcessImage p lib bucket key w).1 = Except.ok v →
      v.ThumbnailKey = "thumbnails/" ++ key ∧ v.MediumKey = "medium/" ++ key ∧
        v.OriginalKey = key) ∧
    ("thumbnails/" ++ key ≠ key ∧ "medium/" ++ key ≠ key) ∧
    (ProcessImage p lib bucket key w).2.objects bucket key = w.objects bucket key ∧
    (∀ b k, ¬ (b = p.outputBucket ∧ (k = "thumbnails/" ++ key ∨ k = "medium/" ++ key)) →
      (ProcessImage p lib bucket key w).2.objects b k = w.objects b k) := by
  obtain ⟨hobj, ⟨extra, hcalls, hstore⟩, hres⟩ := ProcessImage_frame p lib bucket key w
  have n1 : "thumbnails/" ++ key ≠ key := prefixed_key_ne _ _ (by decide)
  have n2 : "medium/" ++ key ≠ key := prefixed_key_ne _ _ (by decide)
  refine ⟨⟨extra, hcalls, ?_⟩, ?_, ⟨n1, n2⟩, ?_, hobj⟩
  · intro c hc b k body cty hcall
    have := hstore c hc
    subst hcall
    simp only [storesElsewhere, Bool.not_eq_false', Bool.and_eq_true, Bool.or_eq_true,
      decide_eq_true_eq] at this
    exact this
  · intro v hv
    rw [hres v hv]
    exact ⟨rfl, rfl, rfl⟩
  · apply hobj
    rintro ⟨_, h | h⟩
    · exact n1 h.symm
    · exact n2 h.symm

/-- Witness of C10: processing `cat.jpg` with the source bucket as output
bucket leaves the original in place and returns the two variant keys. -/
theorem ProcessImage_addressing_witness :
    (ProcessImage ⟨sampleClient "", "in"⟩ sampleCodecs "in" "cat.jpg" sampleWorld).2.objects
        "in" "cat.jpg" = sampleWorld.objects "in" "cat.jpg" ∧
    ((ProcessImage ⟨sampleClient "", "in"⟩ sampleCodecs "in" "cat.jpg" sampleWorld).1 =
        Except.ok { ThumbnailKey := "thumbnails/cat.jpg", MediumKey := "medium/cat.jpg",
                    OriginalKey := "cat.jpg" }) ∧
    ("thumbnails/cat.jpg" = "thumbnails/" ++ "cat.jpg" ∧
      "medium/cat.jpg" = "medium/" ++ "cat.jpg" ∧ "cat.jpg" = "cat.jpg") :=
  ⟨(ProcessImage_addressing ⟨sampleClient "", "in"⟩ sampleCodecs "in" "cat.jpg"
      sampleWorld).2.2.2.1,
    rfl,
    (ProcessImage_addressing ⟨sampleClient "", "in"⟩ sampleCodecs "in" "cat.jpg"
      sampleWorld).2.1
      { ThumbnailKey := "thumbnails/cat.jpg", MediumKey := "medium/cat.jpg",
        OriginalKey := "cat.jpg" } rfl⟩

/-- C9: no rollback on a partial write. After a successful download:
when the thumbnail step succeeds and the medium step fails, `ProcessImage`
returns an error, the thumbnail store request was the last call before the
medium step, the objects are exactly those left by the thumbnail step, so
`thumbnails/` + key still holds the thumbnail, and the only store request
issued afterwards is the failed one for `medium/` + key; when the thumbnail
step fails, `ProcessImage` stops in the state that step left and no store
request for `medium/` + key was issued. -/
theorem ProcessImage_no_rollback (p : ImageProcessor) (lib : Codecs) (bucket key : String)
    (w : World) (img : Image) (ct : String)
    (hd : (downloadImage p lib bucket key w).1 = Except.ok (img, ct)) :
    (∀ e, (thumbnailStep p lib bucket key w img ct).1 = Except.ok () →
      (mediumStep p lib bucket key w img ct).1 = Except.error e →
      (ProcessImage p lib bucket key w).1 =
          Except.error ("erro ao criar versão média: " ++ e) ∧
        (ProcessImage p lib bucket key w).2.objects =
          (thumbnailStep p lib bucket key w img ct).2.objects ∧
        (∃ body cty,
          (ProcessImage p lib bucket key w).2.objects p.outputBucket ("thumbnails/" ++ key) =
            some { Body := body, ContentType := some cty } ∧
          (thumbnailStep p lib bucket key w img ct).2.calls.getLast? =
            some (Call.PutObject p.outputBucket ("thumbnails/" ++ key) body cty)) ∧
        (∃ extra, (ProcessImage p lib bucket key w).2.calls =
            (thumbnailStep p lib bucket key w img ct).2.calls ++ extra ∧
          ∀ c ∈ extra, ∀ b k body cty, c = Call.PutObject b k body cty →
            b = p.outputBucket ∧ k = "medium/" ++ key)) ∧
    (∀ e, (thumbnailStep p lib bucket key w img ct).1 = Except.error e →
      ProcessImage p lib bucket key w =
          (Except.error ("erro ao criar thumbnail: " ++ e),
            (thumbnailStep p lib bucket key w img ct).2) ∧
        ∃ extra, (ProcessImage p lib bucket key w).2.calls = w.calls ++ extra ∧
          ∀ c ∈ extra, ∀ b body cty, c ≠ Call.PutObject b ("medium/" ++ key) body cty) := by
  have hne : "thumbnails/" ++ key ≠ "medium/" ++ key := by
    intro e
    have := congrArg String.length e
    rw [String.length_append, String.length_append] at this
    have l1 : "thumbnails/".length = 11 := by decide
    have l2 : "medium/".length = 7 := by decide
    omega
  constructor
  · intro e ht hm
    have hP : ProcessImage p lib bucket key w =
        (Except.error ("erro ao criar versão média: " ++ e),
          (mediumStep p lib bucket key w img ct).2) := by
      rw [ProcessImage_steps]
      simp only [hd, ht, hm]
    rw [hP]
    have hmobj : (mediumStep p lib bucket key w img ct).2.objects =
        (thumbnailStep p lib bucket key w img ct).2.objects := by
      rcases createAndUploadVariant_objects p lib img ("medium/" ++ key) MediumWidth
        MediumHeight ct (thumbnailStep p lib bucket key w img ct).2 with ⟨_, h⟩ | ⟨hok, _⟩
      · exact h
      · have hm2 : (mediumStep p lib bucket key w img ct).1 = Except.ok () := hok
        rw [hm] at hm2
        simp at hm2
    refine ⟨rfl, hmobj, ?_, ?_⟩
    · rcases createAndUploadVariant_objects p lib img ("thumbnails/" ++ key) ThumbnailWidth
        ThumbnailHeight ct (downloadImage p lib bucket key w).2 with ⟨⟨e2, herr⟩, _⟩ | ⟨_, hst, _⟩
      · have ht2 : (thumbnailStep p lib bucket key w img ct).1 = Except.error e2 := herr
        rw [ht] at ht2
        simp at ht2
      · obtain ⟨body, cty, h1, h2⟩ := hst
        refine ⟨body, cty, ?_, h2⟩
        simp only [hmobj]
        exact h1
    · exact (createAndUploadVariant_frame p lib img ("medium/" ++ key) MediumWidth
        MediumHeight ct (thumbnailStep p lib bucket key w img ct).2).2
  · intro e ht
    have hP : ProcessImage p lib bucket key w =
        (Except.error ("erro ao criar thumbnail: " ++ e),
          (thumbnailStep p lib bucket key w img ct).2) := by
      rw [ProcessImage_steps]
      simp only [hd, ht]
    rw [hP]
    refine ⟨rfl, ?_⟩
    obtain ⟨_, e1, dcalls, dstore⟩ := downloadImage_frame p lib bucket key w
    obtain ⟨_, e2, tcalls, tstore⟩ := createAndUploadVariant_frame p lib img
      ("thumbnails/" ++ key) ThumbnailWidth ThumbnailHeight ct
      (downloadImage p lib bucket key w).2
    refine ⟨e1 ++ e2, ?_, ?_⟩
    · show (thumbnailStep p lib bucket key w img ct).2.calls = w.calls ++ (e1 ++ e2)
      unfold thumbnailStep
      rw [tcalls, dcalls, List.append_assoc]
    · intro c hc b body cty hcall
      subst hcall
      rcases List.mem_append.mp hc with h | h
      · have := dstore _ h
        simp [isStore] at this
      · exact hne (tstore _ h b _ body cty rfl).2.symm

/-- Witness of C9: `cat.jpg` is downloaded and its thumbnail stored, the store
request for `medium/cat.jpg` is refused; `ProcessImage` returns the error and
`out/thumbnails/cat.jpg` holds an object. With the store request for
`thumbnails/cat.jpg` refused instead, `ProcessImage` stops after the thumbnail
step. -/
theorem ProcessImage_no_rollback_witness :
    (downloadImage ⟨sampleClient "medium/cat.jpg", "out"⟩ sampleCodecs "in" "cat.jpg"
        sampleWorld).1 = Except.ok (⟨1000, 1000, []⟩, "image/jpeg") ∧
    (ProcessImage ⟨sampleClient "medium/cat.jpg", "out"⟩ sampleCodecs "in" "cat.jpg"
        sampleWorld).1 =
      Except.error ("erro ao criar versão média: " ++ "erro ao fazer upload: AccessDenied") ∧
    (∃ body cty,
      (ProcessImage ⟨sampleClient "medium/cat.jpg", "out"⟩ sampleCodecs "in" "cat.jpg"
          sampleWorld).2.objects "out" ("thumbnails/" ++ "cat.jpg") =
        some { Body := body, ContentType := some cty } ∧
      (thumbnailStep ⟨sampleClient "medium/cat.jpg", "out"⟩ sampleCodecs "in" "cat.jpg"
          sampleWorld ⟨1000, 1000, []⟩ "image/jpeg").2.calls.getLast? =
        some (Call.PutObject "out" ("thumbnails/" ++ "cat.jpg") body cty)) ∧
    ProcessImage ⟨sampleClient "thumbnails/cat.jpg", "out"⟩ sampleCodecs "in" "cat.jpg"
        sampleWorld =
      (Except.error ("erro ao criar thumbnail: " ++ "erro ao fazer upload: AccessDenied"),
        (thumbnailStep ⟨sampleClient "thumbnails/cat.jpg", "out"⟩ sampleCodecs "in" "cat.jpg"
          sampleWorld ⟨1000, 1000, []⟩ "image/jpeg").2) :=
  ⟨rfl,
    ((ProcessImage_no_rollback ⟨sampleClient "medium/cat.jpg", "out"⟩ sampleCodecs "in"
      "cat.jpg" sampleWorld ⟨1000, 1000, []⟩ "image/jpeg" rfl).1
      "erro ao fazer upload: AccessDenied" rfl rfl).1,
    ((ProcessImage_no_rollback ⟨sampleClient "medium/cat.jpg", "out"⟩ sampleCodecs "in"
      "cat.jpg" sampleWorld ⟨1000, 1000, []⟩ "image/jpeg" rfl).1
      "erro ao fazer upload: AccessDenied" rfl rfl).2.2.1,
    ((ProcessImage_no_rollback ⟨sampleClient "thumbnails/cat.jpg", "out"⟩ sampleCodecs "in"
      "cat.jpg" sampleWorld ⟨1000, 1000, []⟩ "image/jpeg" rfl).2
      "erro ao fazer upload: AccessDenied" rfl).1⟩

/-! ## Theorems: message bodies with omitted fields -/

/-- Members matching no field of `S3Event` are skipped. -/
theorem decodeEventMembers_skip (members : List (String × JSON)) (old : S3Event)
    (h : ∀ kv ∈ members, fieldMatches "Records" kv.1 = false) :
    decodeEventMembers members old = some old := by
  induction members with
  | nil => rfl
  | cons kv rest ih =>
    obtain ⟨key, v⟩ := kv
    have hk : fieldMatches "Records" key = false := h (key, v) (List.mem_cons_self _ _)
    unfold decodeEventMembers
    simp only [hk, Bool.false_eq_true, if_false]
    exact ih (fun kv hkv => h kv (List.mem_cons_of_mem _ hkv))

/-- An object without a `size` member leaves `Size` as it was. -/
theorem decodeObjectMembers_size (members : List (String × JSON)) (old o : S3Object)
    (h : ∀ kv ∈ members, fieldMatches "size" kv.1 = false)
    (hd : decodeObjectMembers members old = some o) : o.Size = old.Size := by
  induction members generalizing old with
  | nil =>
    simp only [decodeObjectMembers, Option.some.injEq] at hd
    rw [← hd]
  | cons kv rest ih =>
    obtain ⟨key, v⟩ := kv
    have hk : fieldMatches "size" key = false := h (key, v) (List.mem_cons_self _ _)
    have hrest : ∀ kv ∈ rest, fieldMatches "size" kv.1 = false :=
      fun kv hkv => h kv (List.mem_cons_of_mem _ hkv)
    unfold decodeObjectMembers at hd
    by_cases hkey : fieldMatches "key" key = true
    · simp only [hkey, if_true] at hd
      cases hs : decodeString v old.Key with
      | none => rw [hs] at hd; simp at hd
      | some s =>
        rw [hs] at hd
        exact ih { old with Key := s } hrest hd
    · simp only [hkey, hk, Bool.false_eq_true, if_false] at hd
      exact ih _ hrest hd

/-- An object without a `key` member leaves `Key` as it was. -/
theorem decodeObjectMembers_key (members : List (String × JSON)) (old o : S3Object)
    (h : ∀ kv ∈ members, fieldMatches "key" kv.1 = false)
    (hd : decodeObjectMembers members old = some o) : o.Key = old.Key := by
  induction members generalizing old with
  | nil =>
    simp only [decodeObjectMembers, Option.some.injEq] at hd
    rw [← hd]
  | cons kv rest ih =>
    obtain ⟨key, v⟩ := kv
    have hk : fieldMatches "key" key = false := h (key, v) (List.mem_cons_self _ _)
    have hrest : ∀ kv ∈ rest, fieldMatches "key" kv.1 = false :=
      fun kv hkv => h kv (List.mem_cons_of_mem _ hkv)
    unfold decodeObjectMembers at hd
    simp only [hk, Bool.false_eq_true, if_false] at hd
    by_cases hsz : fieldMatches "size" key = true
    · simp only [hsz, if_true] at hd
      cases hs : decodeInt64 v old.Size with
      | none => rw [hs] at hd; simp at hd
      | some n =>
        rw [hs] at hd
        exact ih { old with Size := n } hrest hd
    · simp only [hsz, if_false] at hd
      exact ih _ hrest hd

/-- An object without a `name` member leaves `Name` as it was. -/
theorem decodeBucketMembers_name (members : List (String × JSON)) (old b : S3Bucket)
    (h : ∀ kv ∈ members, fieldMatches "name" kv.1 = false)
    (hd : decodeBucketMembers members old = some b) : b.Name = old.Name := by
  induction members generalizing old with
  | nil =>
    simp only [decodeBucketMembers, Option.some.injEq] at hd
    rw [← hd]
  | cons kv rest ih =>
    obtain ⟨key, v⟩ := kv
    have hk : fieldMatches "name" key = false := h (key, v) (List.mem_cons_self _ _)
    have hrest : ∀ kv ∈ rest, fieldMatches "name" kv.1 = false :=
      fun kv hkv => h kv (List.mem_cons_of_mem _ hkv)
    unfold decodeBucketMembers at hd
    simp only [hk, Bool.false_eq_true, if_false] at hd
    exact ih _ hrest hd

/-- The handler `HandleSQSEvent` on a single message whose body parses. -/
theorem HandleSQSEvent_single_parsed {β : Type} (unmarshal : β → Option S3Event)
    (outcome : String → String → Except String ProcessResult)
    (m : SQSMessage β) (s3Event : S3Event) (log : CallLog)
    (hu : unmarshal m.Body = some s3Event) :
    HandleSQSEvent unmarshal (recordCalls outcome) [m] log =
      (({ BatchItemFailures :=
            if s3Event.Records.any (recordFails outcome) = true then
              [{ ItemIdentifier := m.MessageId }]
            else [] }, none),
        log ++ expectedCalls outcome s3Event.Records) := by
  unfold HandleSQSEvent
  rw [messagesLoop_recordCalls]
  by_cases hany : s3Event.Records.any (recordFails outcome) = true
  · simp [messageFails, messageCalls, hu, hany]
  · simp [messageFails, messageCalls, hu, hany]

/-- A member key that selects a field has the folded name of that field. -/
theorem fieldMatches_foldName (name key : String) (h : fieldMatches name key = true) :
    foldName key = foldName name := by
  unfold fieldMatches at h
  rcases (Bool.or_eq_true _ _).mp h with h1 | h1
  · rw [of_decide_eq_true h1]
  · exact of_decide_eq_true h1

/-- A member key selects at most one of two fields with different folded
names. -/
theorem fieldMatches_disjoint (a b key : String) (hab : foldName a ≠ foldName b)
    (h : fieldMatches a key = true) : fieldMatches b key = false := by
  cases hb : fieldMatches b key with
  | false => rfl
  | true =>
    exact absurd ((fieldMatches_foldName a key h).symm.trans (fieldMatches_foldName b key hb)) hab

theorem findMember_cons_match (name key : String) (x : JSON) (rest : List (String × JSON))
    (h : fieldMatches name key = true) : findMember name ((key, x) :: rest) = some x := by
  simp [findMember, List.find?_cons, h]

theorem findMember_cons_skip (name key : String) (x : JSON) (rest : List (String × JSON))
    (h : fieldMatches name key = false) :
    findMember name ((key, x) :: rest) = findMember name rest := by
  simp [findMember, List.find?_cons, h]

theorem findMember_eq_none (name : String) (members : List (String × JSON))
    (h : ∀ kv ∈ members, fieldMatches name kv.1 = false) : findMember name members = none := by
  induction members with
  | nil => rfl
  | cons kv rest ih =>
    obtain ⟨key, x⟩ := kv
    rw [findMember_cons_skip name key x rest (h (key, x) (List.mem_cons_self _ _))]
    exact ih (fun kv hkv => h kv (List.mem_cons_of_mem _ hkv))

theorem namedOnce_of_unnamed (name : String) (members : List (String × JSON))
    (h : ∀ kv ∈ members, fieldMatches name kv.1 = false) : namedOnce name members = true := by
  unfold namedOnce
  rw [decide_eq_true_eq, List.countP_eq_zero.mpr]
  · exact Nat.zero_le 1
  · intro kv hkv
    simp [h kv hkv]

theorem namedOnce_cons_match (name key : String) (x : JSON) (rest : List (String × JSON))
    (hk : fieldMatches name key = true) (h : namedOnce name ((key, x) :: rest) = true) :
    ∀ kv ∈ rest, fieldMatches name kv.1 = false := by
  unfold namedOnce at h
  rw [decide_eq_true_eq, List.countP_cons_of_pos _ _ (by simpa using hk)] at h
  have h0 : List.countP (fun kv : String × JSON => fieldMatches name kv.1) rest = 0 := by omega
  intro kv hkv
  have := List.countP_eq_zero.mp h0 kv hkv
  simpa using this

theorem namedOnce_cons_skip (name key : String) (x : JSON) (rest : List (String × JSON))
    (hk : fieldMatches name key = false) (h : namedOnce name ((key, x) :: rest) = true) :
    namedOnce name rest = true := by
  unfold namedOnce at h ⊢
  rw [decide_eq_true_eq, List.countP_cons_of_neg _ _ (by simp [hk])] at h
  exact decide_eq_true h

/-- The decoder on an object naming `name` at most once: the field comes from
the member naming it, and stays as it was when there is none. -/
theorem decodeBucketMembers_lookup (members : List (String × JSON)) (old : S3Bucket)
    (h : namedOnce "name" members = true) :
    decodeBucketMembers members old =
      (match findMember "name" members with
       | none => some old
       | some x =>
         match decodeString x old.Name with
         | none => none
         | some s => some { Name := s }) := by
  induction members generalizing old with
  | nil => rfl
  | cons kv rest ih =>
    obtain ⟨key, x⟩ := kv
    unfold decodeBucketMembers
    cases hk : fieldMatches "name" key with
    | true =>
      have hrest := namedOnce_cons_match "name" key x rest hk h
      rw [findMember_cons_match "name" key x rest hk]
      simp only [if_true]
      cases hd : decodeString x old.Name with
      | none => rfl
      | some s =>
        simp only
        rw [ih _ (namedOnce_of_unnamed "name" rest hrest), findMember_eq_none "name" rest hrest]
    | false =>
      rw [findMember_cons_skip "name" key x rest hk]
      simp only [Bool.false_eq_true, if_false]
      exact ih old (namedOnce_cons_skip "name" key x rest hk h)

/-- The decoder on an object naming `key` and `size` at most once each. -/
theorem decodeObjectMembers_lookup (members : List (String × JSON)) (old : S3Object)
    (h1 : namedOnce "key" members = true) (h2 : namedOnce "size" members = true) :
    decodeObjectMembers members old =
      (match (match findMember "key" members with
              | none => some old.Key
              | some x => decodeString x old.Key),
             (match findMember "size" members with
              | none => some old.Size
              | some x => decodeInt64 x old.Size) with
       | some s, some n => some { Key := s, Size := n }
       | _, _ => none) := by
  induction members generalizing old with
  | nil => rfl
  | cons kv rest ih =>
    obtain ⟨key, x⟩ := kv
    unfold decodeObjectMembers
    cases hk : fieldMatches "key" key with
    | true =>
      have hs : fieldMatches "size" key = false :=
        fieldMatches_disjoint "key" "size" key (by decide) hk
      have hrest := namedOnce_cons_match "key" key x rest hk h1
      rw [findMember_cons_match "key" key x rest hk, findMember_cons_skip "size" key x rest hs]
      simp only [if_true]
      cases hd : decodeString x old.Key with
      | none => rfl
      | some s =>
        simp only
        rw [ih _ (namedOnce_of_unnamed "key" rest hrest)
          (namedOnce_cons_skip "size" key x rest hs h2), findMember_eq_none "key" rest hrest]
    | false =>
      rw [findMember_cons_skip "key" key x rest hk]
      simp only [Bool.false_eq_true, if_false]
      cases hs : fieldMatches "size" key with
      | true =>
        have hrest := namedOnce_cons_match "size" key x rest hs h2
        rw [findMember_cons_match "size" key x rest hs]
        simp only [if_true]
        cases hd : decodeInt64 x old.Size with
        | none =>
          simp only
          split
          · rename_i heq
            exact absurd heq (by simp)
          · rfl
        | some n =>
          simp only
          rw [ih _ (namedOnce_cons_skip "key" key x rest hk h1)
            (namedOnce_of_unnamed "size" rest hrest), findMember_eq_none "size" rest hrest]
      | false =>
        rw [findMember_cons_skip "size" key x rest hs]
        simp only [Bool.false_eq_true, if_false]
        exact ih old (namedOnce_cons_skip "key" key x rest hk h1)
          (namedOnce_cons_skip "size" key x rest hs h2)

/-- The decoder on an object naming `bucket` and `object` at most once each. -/
theorem decodeEntityMembers_lookup (members : List (String × JSON)) (old : S3Entity)
    (h1 : namedOnce "bucket" members = true) (h2 : namedOnce "object" members = true) :
    decodeEntityMembers members old =
      (match (match findMember "bucket" members with
              | none => some old.Bucket
              | some x => decodeBucket x old.Bucket),
             (match findMember "object" members with
              | none => some old.Object
              | some x => decodeObject x old.Object) with
       | some b, some o => some { Bucket := b, Object := o }
       | _, _ => none) := by
  induction members generalizing old with
  | nil => rfl
  | cons kv rest ih =>
    obtain ⟨key, x⟩ := kv
    unfold decodeEntityMembers
    cases hk : fieldMatches "bucket" key with
    | true =>
      have hs : fieldMatches "object" key = false :=
        fieldMatches_disjoint "bucket" "object" key (by decide) hk
      have hrest := namedOnce_cons_match "bucket" key x rest hk h1
      rw [findMember_cons_match "bucket" key x rest hk,
        findMember_cons_skip "object" key x rest hs]
      simp only [if_true]
      cases hd : decodeBucket x old.Bucket with
      | none => rfl
      | some s =>
        simp only
        rw [ih _ (namedOnce_of_unnamed "bucket" rest hrest)
          (namedOnce_cons_skip "object" key x rest hs h2),
          findMember_eq_none "bucket" rest hrest]
    | false =>
      rw [findMember_cons_skip "bucket" key x rest hk]
      simp only [Bool.false_eq_true, if_false]
      cases hs : fieldMatches "object" key with
      | true =>
        have hrest := namedOnce_cons_match "object" key x rest hs h2
        rw [findMember_cons_match "object" key x rest hs]
        simp only [if_true]
        cases hd : decodeObject x old.Object with
        | none =>
          simp only
          split
          · rename_i heq
            exact absurd heq (by simp)
          · rfl
        | some n =>
          simp only
          rw [ih _ (namedOnce_cons_skip "bucket" key x rest hk h1)
            (namedOnce_of_unnamed "object" rest hrest),
            findMember_eq_none "object" rest hrest]
      | false =>
        rw [findMember_cons_skip "object" key x rest hs]
        simp only [Bool.false_eq_true, if_false]
        exact ih old (namedOnce_cons_skip "bucket" key x rest hk h1)
          (namedOnce_cons_skip "object" key x rest hs h2)

/-- The decoder on an entry naming `eventName` and `s3` at most once each. -/
theorem decodeRecordMembers_lookup (members : List (String × JSON)) (old : S3EventRecord)
    (h1 : namedOnce "eventName" members = true) (h2 : namedOnce "s3" members = true) :
    decodeRecordMembers members old =
      (match (match findMember "eventName" members with
              | none => some old.EventName
              | some x => decodeString x old.EventName),
             (match findMember "s3" members with
              | none => some old.S3
              | some x => decodeEntity x old.S3) with
       | some s, some e => some { EventName := s, S3 := e }
       | _, _ => none) := by
  induction members generalizing old with
  | nil => rfl
  | cons kv rest ih =>
    obtain ⟨key, x⟩ := kv
    unfold decodeRecordMembers
    cases hk : fieldMatches "eventName" key with
    | true =>
      have hs : fieldMatches "s3" key = false :=
        fieldMatches_disjoint "eventName" "s3" key (by decide) hk
      have hrest := namedOnce_cons_match "eventName" key x rest hk h1
      rw [findMember_cons_match "eventName" key x rest hk,
        findMember_cons_skip "s3" key x rest hs]
      simp only [if_true]
      cases hd : decodeString x old.EventName with
      | none => rfl
      | some s =>
        simp only
        rw [ih _ (namedOnce_of_unnamed "eventName" rest hrest)
          (namedOnce_cons_skip "s3" key x rest hs h2),
          findMember_eq_none "eventName" rest hrest]
    | false =>
      rw [findMember_cons_skip "eventName" key x rest hk]
      simp only [Bool.false_eq_true, if_false]
      cases hs : fieldMatches "s3" key with
      | true =>
        have hrest := namedOnce_cons_match "s3" key x rest hs h2
        rw [findMember_cons_match "s3" key x rest hs]
        simp only [if_true]
        cases hd : decodeEntity x old.S3 with
        | none =>
          simp only
          split
          · rename_i heq
            exact absurd heq (by simp)
          · rfl
        | some n =>
          simp only
          rw [ih _ (namedOnce_cons_skip "eventName" key x rest hk h1)
            (namedOnce_of_unnamed "s3" rest hrest),
            findMember_eq_none "s3" rest hrest]
      | false =>
        rw [findMember_cons_skip "s3" key x rest hs]
        simp only [Bool.false_eq_true, if_false]
        exact ih old (namedOnce_cons_skip "eventName" key x rest hk h1)
          (namedOnce_cons_skip "s3" key x rest hs h2)

/-- The decoder on a body naming `Records` at most once. -/
theorem decodeEventMembers_lookup (members : List (String × JSON)) (old : S3Event)
    (h : namedOnce "Records" members = true) :
    decodeEventMembers members old =
      (match findMember "Records" members with
       | none => some old
       | some x =>
         match decodeRecords x old.Records with
         | none => none
         | some rs => some { Records := rs }) := by
  induction members generalizing old with
  | nil => rfl
  | cons kv rest ih =>
    obtain ⟨key, x⟩ := kv
    unfold decodeEventMembers
    cases hk : fieldMatches "Records" key with
    | true =>
      have hrest := namedOnce_cons_match "Records" key x rest hk h
      rw [findMember_cons_match "Records" key x rest hk]
      simp only [if_true]
      cases hd : decodeRecords x old.Records with
      | none => rfl
      | some rs =>
        simp only
        rw [ih _ (namedOnce_of_unnamed "Records" rest hrest),
          findMember_eq_none "Records" rest hrest]
    | false =>
      rw [findMember_cons_skip "Records" key x rest hk]
      simp only [Bool.false_eq_true, if_false]
      exact ih old (namedOnce_cons_skip "Records" key x rest hk h)

theorem decodeString_read (x : JSON) : decodeString x "" = readString (some x) := by
  cases x <;> rfl

theorem decodeInt64_read (x : JSON) : decodeInt64 x 0 = readInt64 (some x) := by
  cases x <;> rfl

/-- On a bucket object naming no field twice the decoder, started from the
zero value, is the field-by-field reading. -/
theorem decodeBucket_read (v : JSON) (h : noRepeatBucket v = true) :
    decodeBucket v { Name := "" } = readBucket (some v) := by
  cases v with
  | object members =>
    unfold decodeBucket readBucket
    simp only
    rw [decodeBucketMembers_lookup members _ h]
    cases hf : findMember "name" members with
    | none => rfl
    | some x =>
      simp only
      rw [decodeString_read]
      cases readString (some x) <;> rfl
  | _ => rfl

/-- On an `object` member naming no field twice the decoder, started from the
zero value, is the field-by-field reading. -/
theorem decodeObject_read (v : JSON) (h : noRepeatObject v = true) :
    decodeObject v { Key := "", Size := 0 } = readObject (some v) := by
  cases v with
  | object members =>
    unfold noRepeatObject at h
    simp only [Bool.and_eq_true] at h
    unfold decodeObject readObject
    simp only
    rw [decodeObjectMembers_lookup members _ h.1 h.2]
    have e1 : (match findMember "key" members with
        | none => some ""
        | some x => decodeString x "") = readString (findMember "key" members) := by
      cases findMember "key" members with
      | none => rfl
      | some x => exact decodeString_read x
    have e2 : (match findMember "size" members with
        | none => some (0 : Int)
        | some x => decodeInt64 x 0) = readInt64 (findMember "size" members) := by
      cases findMember "size" members with
      | none => rfl
      | some x => exact decodeInt64_read x
    simp only [e1, e2]
  | _ => rfl

/-- On an `s3` member naming no field twice the decoder, started from the zero
value, is the field-by-field reading. -/
theorem decodeEntity_read (v : JSON) (h : noRepeatEntity v = true) :
    decodeEntity v { Bucket := { Name := "" }, Object := { Key := "", Size := 0 } } =
      readEntity (some v) := by
  cases v with
  | object members =>
    unfold noRepeatEntity at h
    simp only [Bool.and_eq_true] at h
    obtain ⟨⟨⟨h1, h2⟩, h3⟩, h4⟩ := h
    unfold decodeEntity readEntity
    simp only
    rw [decodeEntityMembers_lookup members _ h1 h2]
    have e1 : (match findMember "bucket" members with
        | none => some ({ Name := "" } : S3Bucket)
        | some x => decodeBucket x { Name := "" }) =
        readBucket (findMember "bucket" members) := by
      cases hf : findMember "bucket" members with
      | none => rfl
      | some x =>
        rw [hf] at h3
        exact decodeBucket_read x h3
    have e2 : (match findMember "object" members with
        | none => some ({ Key := "", Size := 0 } : S3Object)
        | some x => decodeObject x { Key := "", Size := 0 }) =
        readObject (findMember "object" members) := by
      cases hf : findMember "object" members with
      | none => rfl
      | some x =>
        rw [hf] at h4
        exact decodeObject_read x h4
    simp only [e1, e2]
  | _ => rfl

/-- On an entry naming no field twice the decoder, started from the zero
value, is the field-by-field reading. -/
theorem decodeRecord_read (v : JSON) (h : noRepeatRecord v = true) :
    decodeRecord v zeroRecord = readRecord v := by
  cases v with
  | object members =>
    unfold noRepeatRecord at h
    simp only [Bool.and_eq_true] at h
    obtain ⟨⟨h1, h2⟩, h3⟩ := h
    unfold decodeRecord readRecord
    simp only
    rw [decodeRecordMembers_lookup members _ h1 h2]
    have e1 : (match findMember "eventName" members with
        | none => some zeroRecord.EventName
        | some x => decodeString x zeroRecord.EventName) =
        readString (findMember "eventName" members) := by
      cases findMember "eventName" members with
      | none => rfl
      | some x => exact decodeString_read x
    have e2 : (match findMember "s3" members with
        | none => some zeroRecord.S3
        | some x => decodeEntity x zeroRecord.S3) =
        readEntity (findMember "s3" members) := by
      cases hf : findMember "s3" members with
      | none => rfl
      | some x =>
        rw [hf] at h3
        exact decodeEntity_read x h3
    simp only [e1, e2]
  | _ => rfl

/-- The elements of a `Records` array decoded into an empty slice. -/
theorem decodeElems_read (elems : List JSON) (h : elems.all noRepeatRecord = true) :
    decodeElems elems [] = readElems elems := by
  induction elems with
  | nil => rfl
  | cons v rest ih =>
    rw [List.all_cons, Bool.and_eq_true] at h
    unfold decodeElems readElems
    simp only [List.headD_nil, List.tail_nil]
    rw [decodeRecord_read v h.1, ih h.2]
    cases readRecord v with
    | none => rfl
    | some r =>
      cases readElems rest with
      | none => rfl
      | some rs => rfl

/-- On a body naming no field twice, `json.Unmarshal` is the field-by-field
reading. -/
theorem unmarshalS3Event_read (v : JSON) (h : noRepeatEvent v = true) :
    unmarshalS3Event v = readEvent v := by
  cases v with
  | object members =>
    unfold noRepeatEvent at h
    simp only [Bool.and_eq_true] at h
    obtain ⟨h1, h2⟩ := h
    unfold unmarshalS3Event readEvent
    simp only
    rw [decodeEventMembers_lookup members _ h1]
    cases hf : findMember "Records" members with
    | none => rfl
    | some x =>
      rw [hf] at h2
      simp only
      cases x with
      | array elems =>
        simp only at h2
        unfold decodeRecords readRecords
        simp only
        rw [decodeElems_read elems h2]
        cases readElems elems <;> rfl
      | _ => rfl
  | _ => rfl

/-- C4 fails as stated: the body `{}` omits `Records`, and its message is not
listed as failed; a body whose single entry omits `size` is not listed either
and `ProcessImage` is invoked on its record. -/
theorem omitted_field_counterexample :
    unmarshalS3Event (JSON.object []) = some { Records := [] } ∧
    HandleSQSEvent unmarshalS3Event (recordCalls sampleOutcome)
        [{ MessageId := "m1", Body := JSON.object [] }] [] =
      (({ BatchItemFailures := [] }, none), []) ∧
    HandleSQSEvent unmarshalS3Event (recordCalls sampleOutcome)
        [{ MessageId := "m2", Body := sampleBodyNoSize }] [] =
      (({ BatchItemFailures := [] }, none), [("in", "cat.jpg")]) := by
  decide

/-- The handler on a single message whose body does not parse. -/
theorem HandleSQSEvent_single_unparsed {β : Type} (unmarshal : β → Option S3Event)
    (outcome : String → String → Except String ProcessResult)
    (m : SQSMessage β) (log : CallLog) (hu : unmarshal m.Body = none) :
    HandleSQSEvent unmarshal (recordCalls outcome) [m] log =
      (({ BatchItemFailures := [{ ItemIdentifier := m.MessageId }] }, none), log) := by
  unfold HandleSQSEvent
  rw [messagesLoop_recordCalls]
  simp [messageFails, messageCalls, hu]

/-- The records read from an array are the readings of its elements, one by
one and in order. -/
theorem readElems_pointwise (elems : List JSON) (rs : List S3EventRecord)
    (h : readElems elems = some rs) :
    List.Forall₂ (fun e r => readRecord e = some r) elems rs := by
  induction elems generalizing rs with
  | nil =>
    simp only [readElems, Option.some.injEq] at h
    rw [← h]
    exact List.Forall₂.nil
  | cons v rest ih =>
    unfold readElems at h
    cases hr : readRecord v with
    | none => rw [hr] at h; simp at h
    | some r =>
      cases hrest : readElems rest with
      | none => rw [hr, hrest] at h; simp at h
      | some rs1 =>
        rw [hr, hrest] at h
        simp only [Option.some.injEq] at h
        rw [← h]
        exact List.Forall₂.cons hr (ih rs1 hrest)

/-- An entry read without a `size` member on the path `s3.object` has size 0. -/
theorem readRecord_size_zero (e : JSON) (r : S3EventRecord) (h : readRecord e = some r)
    (hs : sizeMemberOf e = none) : r.S3.Object.Size = 0 := by
  cases e with
  | null =>
    simp only [readRecord, Option.some.injEq] at h
    rw [← h]
    rfl
  | object members =>
    unfold readRecord at h
    unfold sizeMemberOf at hs
    simp only at h hs
    cases hn : readString (findMember "eventName" members) with
    | none => rw [hn] at h; simp at h
    | some ev =>
      cases he : readEntity (findMember "s3" members) with
      | none => rw [hn, he] at h; simp at h
      | some ent =>
        rw [hn, he] at h
        simp only [Option.some.injEq] at h
        rw [← h]
        show ent.Object.Size = 0
        cases h3 : findMember "s3" members with
        | none =>
          rw [h3] at he
          simp only [readEntity, Option.some.injEq] at he
          rw [← he]
        | some s3 =>
          rw [h3] at he hs
          cases s3 with
          | null =>
            simp only [readEntity, Option.some.injEq] at he
            rw [← he]
          | object s3m =>
            unfold readEntity at he
            simp only at he hs
            cases hb : readBucket (findMember "bucket" s3m) with
            | none => rw [hb] at he; simp at he
            | some bk =>
              cases ho : readObject (findMember "object" s3m) with
              | none => rw [hb, ho] at he; simp at he
              | some ob =>
                rw [hb, ho] at he
                simp only [Option.some.injEq] at he
                rw [← he]
                show ob.Size = 0
                cases h4 : findMember "object" s3m with
                | none =>
                  rw [h4] at ho
                  simp only [readObject, Option.some.injEq] at ho
                  rw [← ho]
                | some o =>
                  rw [h4] at ho hs
                  cases o with
                  | null =>
                    simp only [readObject, Option.some.injEq] at ho
                    rw [← ho]
                  | object om =>
                    unfold readObject at ho
                    simp only at ho hs
                    rw [hs] at ho
                    cases hk : readString (findMember "key" om) with
                    | none => rw [hk] at ho; simp at ho
                    | some k =>
                      rw [hk] at ho
                      simp only [readInt64, Option.some.injEq] at ho
                      rw [← ho]
                  | _ => simp [readObject] at ho
          | _ => simp [readEntity] at he
  | _ => simp [readRecord] at h

/-- C4, amended: an omitted field is not a parse failure, it is read as zero.
On every body that names no field twice `json.Unmarshal` is the field-by-field
reading `readEvent`, in which a field that no member names is the zero value:
`size` 0, `key` and `name` empty, no records. A JSON object without a `Records`
member, whatever else it holds, parses to zero records: its message is not
listed and `ProcessImage` is not invoked. The records of a parsed body are the
readings of the entries in order; an entry without `s3.object.size` is a record
of size 0, and a record of size 0 passes the size gate and is handed to
`ProcessImage`. The message is listed iff the reading fails or one of its
records fails. Whether or not a field is named twice, a member list that does
not name a field leaves it as it was. -/
theorem unmarshal_omitted_fields_read_as_zero
    (outcome : String → String → Except String ProcessResult) (id : String) (log : CallLog) :
    (∀ v : JSON, noRepeatEvent v = true → unmarshalS3Event v = readEvent v) ∧
    (∀ members : List (String × JSON),
      (∀ kv ∈ members, fieldMatches "size" kv.1 = false) →
      readObject (some (JSON.object members)) =
        (readString (findMember "key" members)).map (fun k => { Key := k, Size := 0 })) ∧
    (∀ members : List (String × JSON),
      (∀ kv ∈ members, fieldMatches "key" kv.1 = false) →
      readObject (some (JSON.object members)) =
        (readInt64 (findMember "size" members)).map (fun n => { Key := "", Size := n })) ∧
    (∀ members : List (String × JSON),
      (∀ kv ∈ members, fieldMatches "name" kv.1 = false) →
      readBucket (some (JSON.object members)) = some { Name := "" }) ∧
    (readString none = some "" ∧ readInt64 none = some 0 ∧
      readBucket none = some { Name := "" } ∧ readObject none = some { Key := "", Size := 0 } ∧
      readEntity none =
        some { Bucket := { Name := "" }, Object := { Key := "", Size := 0 } } ∧
      readRecords none = some []) ∧
    (∀ members : List (String × JSON),
      (∀ kv ∈ members, fieldMatches "Records" kv.1 = false) →
      unmarshalS3Event (JSON.object members) = some { Records := [] } ∧
      HandleSQSEvent unmarshalS3Event (recordCalls outcome)
          [{ MessageId := id, Body := JSON.object members }] log =
        (({ BatchItemFailures := [] }, none), log)) ∧
    (∀ (members : List (String × JSON)) (elems : List JSON) (s3Event : S3Event),
      findMember "Records" members = some (JSON.array elems) →
      readEvent (JSON.object members) = some s3Event →
      List.Forall₂ (fun e r => readRecord e = some r) elems s3Event.Records) ∧
    (∀ (e : JSON) (r : S3EventRecord), readRecord e = some r → sizeMemberOf e = none →
      r.S3.Object.Size = 0) ∧
    (∀ r : S3EventRecord, r.S3.Object.Size = 0 →
      (processS3Object (recordCalls outcome) r log).2 = log ++ [callOf r]) ∧
    (∀ v : JSON, noRepeatEvent v = true →
      HandleSQSEvent unmarshalS3Event (recordCalls outcome)
          [{ MessageId := id, Body := v }] log =
        (match readEvent v with
         | none => (({ BatchItemFailures := [{ ItemIdentifier := id }] }, none), log)
         | some s3Event =>
           (({ BatchItemFailures :=
                 if s3Event.Records.any (recordFails outcome) = true then
                   [{ ItemIdentifier := id }]
                 else [] }, none),
             log ++ expectedCalls outcome s3Event.Records))) ∧
    (∀ (members : List (String × JSON)) (old o : S3Object),
      (∀ kv ∈ members, fieldMatches "size" kv.1 = false) →
      decodeObjectMembers members old = some o → o.Size = old.Size) ∧
    (∀ (members : List (String × JSON)) (old o : S3Object),
      (∀ kv ∈ members, fieldMatches "key" kv.1 = false) →
      decodeObjectMembers members old = some o → o.Key = old.Key) ∧
    (∀ (members : List (String × JSON)) (old b : S3Bucket),
      (∀ kv ∈ members, fieldMatches "name" kv.1 = false) →
      decodeBucketMembers members old = some b → b.Name = old.Name) := by
  refine ⟨unmarshalS3Event_read, ?_, ?_, ?_, ⟨rfl, rfl, rfl, rfl, rfl, rfl⟩, ?_, ?_,
    readRecord_size_zero, ?_, ?_, decodeObjectMembers_size, decodeObjectMembers_key,
    decodeBucketMembers_name⟩
  · intro members h
    unfold readObject
    simp only
    rw [findMember_eq_none "size" members h]
    cases readString (findMember "key" members) <;> rfl
  · intro members h
    unfold readObject
    simp only
    rw [findMember_eq_none "key" members h]
    cases readInt64 (findMember "size" members) <;> rfl
  · intro members h
    unfold readBucket
    simp only
    rw [findMember_eq_none "name" members h]
    rfl
  · intro members h
    have hu : unmarshalS3Event (JSON.object members) = some { Records := [] } :=
      decodeEventMembers_skip members _ h
    refine ⟨hu, ?_⟩
    rw [HandleSQSEvent_single_parsed unmarshalS3Event outcome _ _ log hu]
    simp [expectedCalls]
  · intro members elems s3Event hf hr
    unfold readEvent at hr
    simp only [hf, readRecords] at hr
    cases he : readElems elems with
    | none => rw [he] at hr; simp at hr
    | some rs =>
      rw [he] at hr
      simp only [Option.some.injEq] at hr
      rw [← hr]
      exact readElems_pointwise elems rs he
  · intro r hr
    rw [(processS3Object_recordCalls outcome r log).1, if_neg (by omega)]
  · intro v hv
    have hread := unmarshalS3Event_read v hv
    cases hr : readEvent v with
    | none =>
      rw [hr] at hread
      exact HandleSQSEvent_single_unparsed unmarshalS3Event outcome
        { MessageId := id, Body := v } log hread
    | some s3Event =>
      rw [hr] at hread
      exact HandleSQSEvent_single_parsed unmarshalS3Event outcome
        { MessageId := id, Body := v } s3Event log hread

/-- Witness of C4, amended: the body whose only entry has an `object` with
`key` and `eTag` and no `size` names no field twice; its message is not listed
and `ProcessImage` is invoked on its record. -/
theorem unmarshal_omitted_fields_read_as_zero_witness :
    noRepeatEvent sampleBodyKeyETag = true ∧
    HandleSQSEvent unmarshalS3Event (recordCalls sampleOutcome)
        [{ MessageId := "m1", Body := sampleBodyKeyETag }] [] =
      (({ BatchItemFailures := [] }, none), [("in", "cat.jpg")]) :=
  ⟨by decide,
    ((unmarshal_omitted_fields_read_as_zero sampleOutcome "m1" []).2.2.2.2.2.2.2.2.2.1
      sampleBodyKeyETag (by decide)).trans (by decide)⟩

/-- Witness of C1 on the two-message batch of the end-to-end scenario: message
`A` carries one valid record, the body of message `B` is not well-formed JSON
(`none`); exactly `B` is reported. -/
theorem HandleSQSEvent_failures_exact_witness :
    (HandleSQSEvent (fun body : Option JSON => body.bind unmarshalS3Event)
        (recordCalls sampleOutcome)
        [{ MessageId := "A", Body := some (JSON.object [("Records", JSON.array [JSON.object
            [("s3", JSON.object
              [("bucket", JSON.object [("name", JSON.string "in")]),
               ("object", JSON.object [("key", JSON.string "a.jpg"),
                                       ("size", JSON.integer 204800)])])]])]) },
         { MessageId := "B", Body := none }] []).1.1.BatchItemFailures =
      [{ ItemIdentifier := "B" }] :=
  ((HandleSQSEvent_failures_exact (fun body : Option JSON => body.bind unmarshalS3Event)
    sampleOutcome _ []).2.1).trans (by decide)

end AwsImageProcessor
